import Mathlib

/-!
Verification development for the muxfys repository (a multiplexing FUSE
"filey" system over S3-like object stores).

The development is a shallow embedding of the namespace state machine of
`filesystem.go` together with the lifecycle code of the library
(`New`, `Mount`, `Unmount`, `UnmountOnDeath`, `uploadCreated`) and the
`CacheTracker`. Go maps are embedded as association lists over `String`
keys; external effects (remote listings, remote copy and delete calls,
local-disk operations, the clock) are passed in explicitly as oracle
parameters, so every callback becomes a pure function from a state and
its oracle to a new state and a `fuse.Status`-like result.
-/

namespace Muxfys

/-- The subset of `fuse.Status` values the embedded code produces. -/
inductive Status where
  | OK
  | ENOENT
  | EPERM
  | EIO
  | ENOSYS
deriving DecidableEq, Repr

open Status

/-- Mode bit constants used by `filesystem.go` (from the `fuse` package and
the `fileMode` and `dirMode` constants of the package). -/
def S_IFDIR : Nat := 16384

/-- Regular-file mode bit constant `fuse.S_IFREG`. -/
def S_IFREG : Nat := 32768

/-- Symlink mode bit constant `fuse.S_IFLNK`. -/
def S_IFLNK : Nat := 40960

/-- The `fileMode` constant (0600). -/
def fileMode : Nat := 384

/-- The `dirMode` constant (0700). -/
def dirMode : Nat := 448

/-- The `symlinkSize` constant. -/
def symlinkSize : Nat := 7

/-- Embedding of `fuse.Attr` as stored in `fs.files`: only the fields the
code reads or writes (`Size`, `Mtime`, `Atime`, `Ctime`, `Mode`). -/
structure Attr where
  size : Nat
  mtime : Nat
  atime : Nat
  ctime : Nat
  mode : Nat
deriving DecidableEq, Repr

/-- Embedding of the `remote` struct fields that the filesystem callbacks
consult (`remote.go` is not part of the sources at hand; the fields are
those set by `Target.CreateRemote` in the library source). The logger,
client and backoff fields are omitted since no modelled code path reads
them. -/
structure Remote where
  host : String
  bucket : String
  basePath : String
  cacheDir : String
  cacheData : Bool
  cacheIsTmp : Bool
  write : Bool
deriving DecidableEq, Repr

/-- Embedding of `fuse.DirEntry` (name and mode). -/
structure DirEntry where
  name : String
  mode : Nat
deriving DecidableEq, Repr, Inhabited

/-- Embedding of `RemoteAttr`, the entries returned by a remote listing.
`size` is a Go `int64`, `mtime` a Unix-seconds timestamp. -/
structure RemoteAttr where
  name : String
  size : Int
  mtime : Nat
deriving DecidableEq, Repr

/-- Modelled from the spec: a half-open byte interval of the interval set
(`intervals.go` is not among the sources at hand). -/
structure Interval where
  start : Int
  stop : Int
deriving DecidableEq, Repr

/-- Modelled from the spec: `Intervals.Merge` inserts an interval and
coalesces any stored interval that overlaps or touches it
(`intervals.go` is not among the sources at hand). -/
def ivMerge (l : List Interval) (iv : Interval) : List Interval :=
  let touching := l.filter (fun j => j.start ≤ iv.stop ∧ iv.start ≤ j.stop)
  let rest := l.filter (fun j => ¬(j.start ≤ iv.stop ∧ iv.start ≤ j.stop))
  let lo := touching.foldl (fun a j => min a j.start) iv.start
  let hi := touching.foldl (fun a j => max a j.stop) iv.stop
  rest ++ [⟨lo, hi⟩]

/-- Modelled from the spec: `Intervals.Truncate` drops or clips every
stored interval so that none extends past the offset (`intervals.go` is
not among the sources at hand). -/
def ivTruncate (l : List Interval) (off : Int) : List Interval :=
  (l.filter (fun j => j.start < off)).map
    (fun j => if j.stop ≤ off then j else ⟨j.start, off⟩)

/-- Modelled from the spec: `Intervals.Difference` returns the parts of a
probe interval not covered by the set (`intervals.go` is not among the
sources at hand). Coverage here is computed interval-by-interval on the
canonical (merged, disjoint) form kept by the tracker. -/
def ivDifference (l : List Interval) (probe : Interval) : List Interval :=
  let clipped := (l.filter (fun j => j.start < probe.stop ∧ probe.start < j.stop)).map
    (fun j => (⟨max j.start probe.start, min j.stop probe.stop⟩ : Interval))
  let sorted := clipped.mergeSort (fun a b => a.start ≤ b.start)
  let (gaps, pos) := sorted.foldl
    (fun (acc : List Interval × Int) j =>
      let (gs, p) := acc
      (if p < j.start then gs ++ [⟨p, j.start⟩] else gs, max p j.stop))
    ([], probe.start)
  if pos < probe.stop then gaps ++ [⟨pos, probe.stop⟩] else gaps

/-- Looks a key up in an association list (embedding of a Go map read). -/
def alookup {α : Type} (m : List (String × α)) (k : String) : Option α :=
  match m with
  | [] => none
  | (k₁, v₁) :: rest => if k₁ = k then some v₁ else alookup rest k

/-- Sets a key in an association list, replacing the first binding of that
key if present, else appending (embedding of a Go map write). -/
def aupsert {α : Type} (m : List (String × α)) (k : String) (v : α) :
    List (String × α) :=
  match m with
  | [] => [(k, v)]
  | (k₁, v₁) :: rest =>
    if k₁ = k then (k, v) :: rest else (k₁, v₁) :: aupsert rest k v

/-- Removes all bindings of a key (embedding of a Go map delete). -/
def aerase {α : Type} (m : List (String × α)) (k : String) :
    List (String × α) :=
  m.filter (fun kv => kv.1 ≠ k)

/-- Inserts a path into a set kept as a duplicate-free list (embedding of
writing `true` into a Go `map[string]bool` used as a set). -/
def setInsert (l : List String) (p : String) : List String :=
  if p ∈ l then l else l ++ [p]

/-- Removes a path from a set kept as a list (embedding of a Go map
delete on a `map[string]bool` used as a set). -/
def setErase (l : List String) (p : String) : List String :=
  l.filter (fun q => q ≠ p)

/-- Models `filepath.Join` on the clean, relative, slash-separated paths
that the FUSE layer hands to the callbacks. -/
def joinPath (a b : String) : String :=
  if a = "" then b else if b = "" then a else a ++ "/" ++ b

/-- Splits a character list at a separator character, keeping empty
segments (the semantics of `strings.Split` with a one-character
separator). -/
def splitChars (c : Char) : List Char → List (List Char)
  | [] => [[]]
  | ch :: rest =>
    let r := splitChars c rest
    if ch = c then [] :: r
    else
      match r with
      | [] => [[ch]]
      | g :: gs => (ch :: g) :: gs

/-- Splits a string at a separator character. -/
def splitOnChar (c : Char) (s : String) : List String :=
  (splitChars c s.data).map (fun l => ⟨l⟩)

/-- Whether a string ends with a slash (the `strings.HasSuffix` test of
`openDir`). -/
def endsWithSlash (s : String) : Bool :=
  s.data.getLast? == some '/'

/-- Models `filepath.Dir` on clean relative paths: everything before the
last slash, or "." when there is no slash. -/
def goDir (p : String) : String :=
  let parts := splitOnChar '/' p
  if parts.length ≤ 1 then "." else String.intercalate "/" parts.dropLast

/-- Models `filepath.Base` on clean relative paths: everything after the
last slash ("." for the empty path, as in Go). -/
def goBase (p : String) : String :=
  if p = "" then "." else ((splitOnChar '/' p).getLast?).getD p

/-- The parent computation used by `addNewEntryToItsDir`,
`rmEntryFromItsDir`, `Mkdir` and `Rename`: `filepath.Dir` with "."
replaced by the root "". -/
def parentOf (p : String) : String :=
  let d := goDir p
  if d = "." then "" else d

/-- The parent computation used by `GetAttr`: `filepath.Dir` with both
"/" and "." replaced by the root "". -/
def parentOfG (p : String) : String :=
  let d := goDir p
  if d = "/" ∨ d = "." then "" else d

/-- Models the Go conversion `uint64(x)` of an `int64` (wrap modulo 2^64),
used when `openDir` stores a listed object size into an `Attr`. -/
def intToUInt64 (i : Int) : Nat :=
  (i % (2 : Int) ^ 64).toNat

/-- Modelled from the spec: `remote.getRemotePath` joins the base path of
the target with a mount-relative path (`remote.go` is not among the
sources at hand; the spec lists `remotePath(rel)` among the path
composition helpers). -/
def Remote.getRemotePath (r : Remote) (rel : String) : String :=
  joinPath r.basePath rel

/-- Modelled from the spec: `remote.getLocalPath` places the remote path
under the cache directory of the target (`remote.go` is not among the
sources at hand; the spec describes the cache directory layout as the
base-path-relative object tree under the cache root). -/
def Remote.getLocalPath (r : Remote) (remotePath : String) : String :=
  joinPath r.cacheDir remotePath

/-- Embedding of the mutable state of a `MuxFys` value: the namespace
maps of the struct, the cache tracker, and the lifecycle booleans. The
FUSE server, mutexes, loggers and signal channels carry no namespace
state and are not represented; `handlingSignals` stands for the signal
registration the channels implement. -/
structure FSState where
  remotes : List Remote
  writeRemote : Option Remote
  dirs : List (String × List Remote) := []
  dirContents : List (String × List DirEntry) := []
  files : List (String × Attr) := []
  fileToRemote : List (String × Remote) := []
  createdFiles : List String := []
  createdDirs : List String := []
  tracker : List (String × List Interval) := []
  mounted : Bool := false
  handlingSignals : Bool := false
deriving DecidableEq, Repr

/-- Embedding of `CacheTracker.Cached`. -/
def cacheCached (s : FSState) (path : String) (iv : Interval) : FSState :=
  { s with tracker := aupsert s.tracker path (ivMerge ((alookup s.tracker path).getD []) iv) }

/-- Embedding of `CacheTracker.Uncached`. -/
def cacheUncached (s : FSState) (path : String) (iv : Interval) : List Interval :=
  ivDifference ((alookup s.tracker path).getD []) iv

/-- Embedding of `CacheTracker.CacheTruncate`. -/
def cacheTruncate (s : FSState) (path : String) (off : Int) : FSState :=
  { s with tracker := aupsert s.tracker path (ivTruncate ((alookup s.tracker path).getD []) off) }

/-- Embedding of `CacheTracker.CacheOverride`. -/
def cacheOverride (s : FSState) (path : String) (iv : Interval) : FSState :=
  { s with tracker := aupsert s.tracker path [iv] }

/-- Embedding of `CacheTracker.CacheRename`. -/
def cacheRename (s : FSState) (oldPath newPath : String) : FSState :=
  { s with tracker :=
      aerase (aupsert s.tracker newPath ((alookup s.tracker oldPath).getD [])) oldPath }

/-- Embedding of `CacheTracker.CacheDelete`. -/
def cacheDelete (s : FSState) (path : String) : FSState :=
  { s with tracker := aerase s.tracker path }

/-- A remote listing outcome: the `findObjects` result that `openDir`
consumes, supplied as an oracle (`remote.findObjects` performs remote
I/O; per the spec it returns OK with an empty set for a non-existent
prefix and propagates other failures). -/
structure Listing where
  status : Status
  objects : List RemoteAttr

/-- A listing oracle for one directory name: the `findObjects` result each
contributing remote produces for that directory. -/
def ListingOracle : Type := Remote → Listing

/-- The slash-terminated remote prefix `openDir` computes for a directory
name before listing it. -/
def remotePrefix (r : Remote) (name : String) : String :=
  let rp := r.getRemotePath name
  if rp ≠ "" then rp ++ "/" else rp

/-- Embedding of `fileDetails`: looks the path up in `files` and
`fileToRemote` and checks writability. A present `files` entry always has
a `fileToRemote` entry in reachable states (the Go code would
dereference a nil remote otherwise); the unreachable case is embedded as
ENOENT. -/
def fileDetails (s : FSState) (name : String) (shouldBeWritable : Bool) :
    Option (Attr × Remote) × Status :=
  match alookup s.files name with
  | none => (none, ENOENT)
  | some attr =>
    match alookup s.fileToRemote name with
    | none => (none, ENOENT)
    | some r =>
      if shouldBeWritable ∧ ¬r.write then (some (attr, r), EPERM)
      else (some (attr, r), OK)

/-- The `Attr` that `openDir` derives from a listed regular-file object. -/
def attrOfObject (obj : RemoteAttr) : Attr :=
  { mode := Nat.lor S_IFREG fileMode
    size := intToUInt64 obj.size
    mtime := obj.mtime
    atime := obj.mtime
    ctime := obj.mtime }

/-- One iteration of the loop in `openDir` over the listed objects. The
boolean accumulator is the `isDir` flag of the Go code. -/
def openDirStep (r : Remote) (name rp : String) (acc : FSState × Bool)
    (obj : RemoteAttr) : FSState × Bool :=
  let (s, isDir) := acc
  if obj.name = name then (s, isDir)
  else
    let dname := obj.name.drop rp.length
    if dname = "" then (s, true)
    else if endsWithSlash dname then
      let dn := dname.dropRight 1
      let thisPath := joinPath name dn
      let s := { s with dirs := aupsert s.dirs thisPath (((alookup s.dirs thisPath).getD []) ++ [r]) }
      ({ s with dirContents :=
          aupsert s.dirContents name (((alookup s.dirContents name).getD []) ++ [⟨dn, S_IFDIR⟩]) }, true)
    else
      let thisPath := joinPath name dname
      let s := { s with
        files := aupsert s.files thisPath (attrOfObject obj)
        fileToRemote := aupsert s.fileToRemote thisPath r }
      ({ s with dirContents :=
          aupsert s.dirContents name (((alookup s.dirContents name).getD []) ++ [⟨dname, S_IFREG⟩]) }, true)

/-- Embedding of `openDir`: registers the contents of one directory as
listed by one remote. The `findObjects` outcome is the oracle argument. -/
def openDir (s : FSState) (r : Remote) (name : String) (l : Listing) :
    FSState × Status :=
  if l.status ≠ OK ∨ l.objects = [] then
    if name = "" then
      -- allow the root to be a non-existent directory
      let s := { s with dirs := aupsert s.dirs "" (((alookup s.dirs "").getD []) ++ [r]) }
      ({ s with dirContents := aupsert s.dirContents "" [] }, OK)
    else if l.status = OK then (s, ENOENT)
    else (s, l.status)
  else
    let rp := remotePrefix r name
    let (s₁, isDir) := l.objects.foldl (openDirStep r name rp) (s, false)
    if isDir then
      let s₂ := { s₁ with dirs := aupsert s₁.dirs name (((alookup s₁.dirs name).getD []) ++ [r]) }
      let s₃ :=
        if (alookup s₂.dirContents name).isSome then s₂
        else
          -- empty dir, we must create an entry in this map
          { s₂ with dirContents := aupsert s₂.dirContents name [] }
      (s₃, OK)
    else (s₁, ENOENT)

/-- Runs `openDir` on a directory for each remote in a list, as the loops
in `GetAttr`, `OpenDir` and `addNewEntryToItsDir` do (statuses are
discarded there). -/
def openDirAll (s : FSState) (rs : List Remote) (name : String)
    (listing : ListingOracle) : FSState :=
  rs.foldl (fun st r => (openDir st r name (listing r)).1) s

/-- Embedding of `GetAttr`: directory attr, cached file attr, or listing
of the parent followed by a retry of both lookups. The returned
attribute value does not affect the state and is omitted. -/
def GetAttr (s : FSState) (name : String) (listing : ListingOracle) :
    FSState × Status :=
  if (alookup s.dirs name).isSome then (s, OK)
  else if (alookup s.files name).isSome then (s, OK)
  else
    let parent := parentOfG name
    if (alookup s.dirContents parent).isSome then (s, ENOENT)
    else
      let s₁ :=
        match alookup s.dirs parent with
        | some rs => openDirAll s rs parent listing
        | none => s
      if (alookup s₁.dirs name).isSome then (s₁, OK)
      else if (alookup s₁.files name).isSome then (s₁, OK)
      else (s₁, ENOENT)

/-- Embedding of `OpenDir`: returns the cached entries, or lists the
directory in every contributing remote and returns the combined cached
result. -/
def OpenDir (s : FSState) (name : String) (listing : ListingOracle) :
    FSState × Option (List DirEntry) × Status :=
  match alookup s.dirs name with
  | none => (s, none, ENOENT)
  | some remotes =>
    match alookup s.dirContents name with
    | some entries => (s, some entries, OK)
    | none =>
      let s₁ := openDirAll s remotes name listing
      match alookup s₁.dirContents name with
      | some entries => (s₁, some entries, OK)
      | none => (s₁, none, ENOENT)

/-- Embedding of `StatfsOut` with the fields `StatFs` fills in. -/
structure StatfsOut where
  blocks : Nat
  bfree : Nat
  bavail : Nat
  files : Nat
  ffree : Nat
  bsize : Nat
deriving DecidableEq, Repr

/-- The `blockSize` constant of `filesystem.go` (4096). -/
def blockSize : Nat := 4096

/-- The `totalBlocks` constant of `filesystem.go`, whose source comment
reads: 1PB / blockSize. -/
def totalBlocks : Nat := 274877906944

/-- The `inodes` constant of `filesystem.go`. -/
def inodes : Nat := 1000000000

/-- The `ioSize` constant of `filesystem.go` (1MB). -/
def ioSize : Nat := 1048576

/-- Embedding of `StatFs`: a constant (faked) set of details. The field
assignments mirror the Go literal exactly: `Blocks` is assigned the
`blockSize` constant and `Bsize` the `ioSize` constant. -/
def StatFs (_name : String) : StatfsOut :=
  { blocks := blockSize
    bfree := totalBlocks
    bavail := totalBlocks
    files := inodes
    ffree := inodes
    bsize := ioSize }

/-- Embedding of `addNewEntryToItsDir`: lists the parent first when its
contents are not cached, then appends a new entry for the named object
to the contents of the parent. -/
def addNewEntryToItsDir (s : FSState) (name : String) (mode : Nat)
    (listing : ListingOracle) : FSState :=
  let d : DirEntry := ⟨goBase name, mode⟩
  let parent := parentOf name
  let s₁ :=
    if (alookup s.dirContents parent).isSome then s
    else
      match alookup s.dirs parent with
      | some rs => openDirAll s rs parent listing
      | none => s
  { s₁ with dirContents :=
      aupsert s₁.dirContents parent (((alookup s₁.dirContents parent).getD []) ++ [d]) }

/-- Embedding of `rmEntryFromItsDir`: finds the first entry of the parent
with the base name and deletes it by moving the last entry into its slot
and shortening the slice by one (the Go code deletes without preserving
order). -/
def rmEntryFromItsDir (s : FSState) (name : String) : FSState :=
  let parent := parentOf name
  let baseName := goBase name
  match alookup s.dirContents parent with
  | none => s
  | some dentries =>
    match dentries.findIdx? (fun e => e.name = baseName) with
    | none => s
    | some i =>
      let newEntries := (dentries.set i ((dentries.getLast?).getD default)).dropLast
      { s with dirContents := aupsert s.dirContents parent newEntries }

/-- A file handle as far as the modelled properties observe it: whether
the handle handed back to the kernel was wrapped by
`nodefs.NewReadOnlyFile`. -/
structure Handle where
  readOnly : Bool
deriving DecidableEq, Repr

/-- Oracle for `Create`: the outcome of `getFileMutex` (lock-file
creation on disk), the clock, and the listing oracle consumed when the
parent of the new file has to be listed. -/
structure CreateOracle where
  mutexOk : Bool := true
  now : Nat := 0
  listing : ListingOracle := fun _ => ⟨OK, []⟩

/-- Embedding of `Create`: requires the write remote, registers a fresh
zero-length file (or refreshes the times of an existing entry), marks
the path created, and returns a cached or remote handle. -/
def Create (s : FSState) (name : String) (_flags : Nat) (o : CreateOracle) :
    FSState × Option Handle × Status :=
  match s.writeRemote with
  | none => (s, none, EPERM)
  | some r =>
    if r.cacheData ∧ ¬o.mutexOk then (s, none, EIO)
    else
      let existed := (alookup s.files name).isSome
      let s₁ :=
        if ¬existed then
          -- add to our directory entries for this file, then register it
          let s₁ := addNewEntryToItsDir s name S_IFREG o.listing
          let attr : Attr :=
            { mode := Nat.lor S_IFREG fileMode
              size := 0
              mtime := o.now
              atime := o.now
              ctime := o.now }
          { s₁ with
            files := aupsert s₁.files name attr
            fileToRemote := aupsert s₁.fileToRemote name r }
        else
          match alookup s.files name with
          | some attr =>
            { s with files := aupsert s.files name { attr with mtime := o.now, atime := o.now } }
          | none => s
      let s₂ := { s₁ with createdFiles := setInsert s₁.createdFiles name }
      (s₂, some ⟨false⟩, OK)

/-- Embedding of `Unlink`: requires write permission on the file, scrubs
the local cache copy when cached, then issues the remote delete (oracle
argument) and only on success removes the namespace entries. -/
def Unlink (s : FSState) (name : String) (deleteStatus : Status) :
    FSState × Status :=
  match fileDetails s name true with
  | (_, ENOENT) => (s, ENOENT)
  | (_, EPERM) => (s, EPERM)
  | (some (_, r), _) =>
    let remotePath := r.getRemotePath name
    let s₁ :=
      if r.cacheData then cacheDelete s (r.getLocalPath remotePath)
      else s
    if deleteStatus ≠ OK then (s₁, deleteStatus)
    else
      let s₂ := { s₁ with
        files := aerase s₁.files name
        fileToRemote := aerase s₁.fileToRemote name
        createdFiles := setErase s₁.createdFiles name }
      (rmEntryFromItsDir s₂ name, OK)
  | (none, st) => (s, st)

/-- Oracle for `Truncate`: lock-file outcome, whether the local cached
copy exists, the outcomes of the local truncate, create and download
steps, and the clock. -/
structure TruncOracle where
  mutexOk : Bool := true
  localExists : Bool := true
  truncOk : Bool := true
  createOk : Bool := true
  getObjectStatus : Status := OK
  copyOk : Bool := true
  now : Nat := 0

/-- Embedding of `Truncate`: no-op success when the offset is beyond the
file size (the Go comparison is strict), else truncate or rebuild the
local cached copy, update the tracker, bump the attribute and mark the
path created. Only implemented for cached remotes. -/
def Truncate (s : FSState) (name : String) (offset : Nat) (o : TruncOracle) :
    FSState × Status :=
  match fileDetails s name true with
  | (_, ENOENT) => (s, ENOENT)
  | (_, EPERM) => (s, EPERM)
  | (some (attr, r), _) =>
    if offset > attr.size then (s, OK)
    else
      let remotePath := r.getRemotePath name
      if r.cacheData then
        let localPath := r.getLocalPath remotePath
        if ¬o.mutexOk then (s, EIO)
        else
          let step : Option FSState :=
            if o.localExists then
              if ¬o.truncOk then none
              else some (cacheTruncate s localPath (Int.ofNat offset))
            else if ¬o.createOk then none
            else if offset = 0 then
              some (cacheTruncate s localPath 0)
            else if o.getObjectStatus ≠ OK then none
            else if ¬o.copyOk then none
            else some (cacheOverride s localPath ⟨0, Int.ofNat offset⟩)
          match step with
          | none =>
            if ¬o.localExists ∧ o.createOk ∧ offset ≠ 0 ∧ o.getObjectStatus ≠ OK then
              (s, o.getObjectStatus)
            else (s, EIO)
          | some s₁ =>
            let s₂ :=
              match alookup s₁.files name with
              | some a =>
                { s₁ with files := aupsert s₁.files name { a with size := offset, mtime := o.now } }
              | none => s₁
            ({ s₂ with createdFiles := setInsert s₂.createdFiles name }, OK)
      else (s, ENOSYS)
  | (none, st) => (s, st)

/-- Oracle for `Mkdir`: the outcome of creating the local shadow
directory, plus the listing oracle for registering the parent entry. -/
structure MkdirOracle where
  mkdirOk : Bool := true
  listing : ListingOracle := fun _ => ⟨OK, []⟩

/-- Embedding of `Mkdir`: requires the write remote and an existing
parent, registers the directory with the write remote only, records it
in `createdDirs` in cached mode, and adds an entry to the parent. -/
def Mkdir (s : FSState) (name : String) (o : MkdirOracle) : FSState × Status :=
  match s.writeRemote with
  | none => (s, EPERM)
  | some w =>
    if (alookup s.dirs name).isSome then (s, OK)
    else
      let parent := parentOf name
      if (alookup s.dirs parent).isNone then (s, ENOENT)
      else if w.cacheData ∧ ¬o.mkdirOk then (s, EIO)
      else
        let s₁ := { s with
          dirs := aupsert s.dirs name (((alookup s.dirs name).getD []) ++ [w])
          createdDirs := if w.cacheData then setInsert s.createdDirs name else s.createdDirs }
        let s₂ :=
          if (alookup s₁.dirContents name).isSome then s₁
          else { s₁ with dirContents := aupsert s₁.dirContents name [] }
        (addNewEntryToItsDir s₂ name S_IFDIR o.listing, OK)

/-- Embedding of `Rmdir`: requires the write remote, only works for known
empty directories, removes the local shadow directory in cached mode,
then scrubs the namespace maps and the parent entry. -/
def Rmdir (s : FSState) (name : String) (rmdirOk : Bool) : FSState × Status :=
  match s.writeRemote with
  | none => (s, EPERM)
  | some w =>
    if (alookup s.dirs name).isNone then (s, ENOENT)
    else if ((alookup s.dirContents name).getD []).length > 0 ∧
        (alookup s.dirContents name).isSome then (s, ENOSYS)
    else if w.cacheData ∧ ¬rmdirOk then (s, EIO)
    else
      let s₁ := { s with
        dirs := aerase s.dirs name
        createdDirs := setErase s.createdDirs name
        dirContents := aerase s.dirContents name }
      (rmEntryFromItsDir s₁ name, OK)

/-- Oracle for `Rename`: the remote copy outcome, the local-disk rename
outcomes of both branches, the lock-file outcomes, the remote delete of
the old path, and the listing oracle for parent registration. -/
structure RenameOracle where
  copyStatus : Status := OK
  localDirOk : Bool := true
  mutexOldOk : Bool := true
  mutexNewOk : Bool := true
  deleteStatus : Status := OK
  listing : ListingOracle := fun _ => ⟨OK, []⟩

/-- Embedding of `Rename`: directory renames are only possible for
directories created during this mount; file renames copy remotely, move
the cached copy, move the namespace entries and finally delete the old
remote object. -/
def Rename (s : FSState) (oldPath newPath : String) (o : RenameOracle) :
    FSState × Status :=
  match s.writeRemote with
  | none => (s, EPERM)
  | some w =>
    let isDir := (alookup s.dirs oldPath).isSome
    if ¬isDir ∧ (alookup s.fileToRemote oldPath).isNone then (s, ENOENT)
    else if isDir ∧ oldPath ∉ s.createdDirs then (s, ENOSYS)
    else if isDir ∧ (alookup s.dirs (parentOf newPath)).isNone then (s, ENOENT)
    else
      let remotePathOld := w.getRemotePath oldPath
      let remotePathNew := w.getRemotePath newPath
      if isDir then
        if w.cacheData then
          if ¬o.localDirOk then (s, EIO)
          else
            let s₁ := { s with
              dirs := aupsert s.dirs newPath ((alookup s.dirs oldPath).getD [])
              dirContents := aupsert s.dirContents newPath ((alookup s.dirContents oldPath).getD [])
              createdDirs := setInsert s.createdDirs newPath }
            let s₂ := { s₁ with
              dirs := aerase s₁.dirs oldPath
              createdDirs := setErase s₁.createdDirs oldPath
              dirContents := aerase s₁.dirContents oldPath }
            (addNewEntryToItsDir (rmEntryFromItsDir s₂ oldPath) newPath S_IFDIR o.listing, OK)
        else (s, ENOSYS)
      else
        if o.copyStatus ≠ OK then (s, o.copyStatus)
        else
          let cacheStep : Option FSState :=
            if w.cacheData then
              if ¬o.mutexOldOk then none
              else if ¬o.mutexNewOk then none
              else some (cacheRename s (w.getLocalPath remotePathOld) (w.getLocalPath remotePathNew))
            else some s
          match cacheStep with
          | none => (s, EIO)
          | some s₁ =>
            -- cache the existence of the new file; a missing old attr would be
            -- a nil map value in Go, embedded by a default Attr
            let s₂ := { s₁ with
              files := aupsert s₁.files newPath ((alookup s₁.files oldPath).getD
                ⟨0, 0, 0, 0, 0⟩)
              fileToRemote :=
                match alookup s₁.fileToRemote oldPath with
                | some rOld => aupsert s₁.fileToRemote newPath rOld
                | none => s₁.fileToRemote }
            let s₃ :=
              if oldPath ∈ s₂.createdFiles then
                { s₂ with createdFiles :=
                    setErase (setInsert s₂.createdFiles newPath) oldPath }
              else s₂
            let s₄ := addNewEntryToItsDir s₃ newPath S_IFREG o.listing
            -- finally unlink oldPath remotely (outcome discarded)
            let s₅ := { s₄ with
              files := aerase s₄.files oldPath
              fileToRemote := aerase s₄.fileToRemote oldPath
              createdFiles := setErase s₄.createdFiles oldPath }
            (rmEntryFromItsDir s₅ oldPath, OK)

/-- Oracle for `Symlink`: the lock-file and local symlink outcomes, the
clock, and the listing oracle for parent registration. -/
structure SymlinkOracle where
  mutexOk : Bool := true
  symlinkOk : Bool := true
  now : Nat := 0
  listing : ListingOracle := fun _ => ⟨OK, []⟩

/-- Embedding of `Symlink`: cached write remote only; creates the local
symlink, notes the destination in the namespace without making it
uploadable. -/
def Symlink (s : FSState) (_source dest : String) (o : SymlinkOracle) :
    FSState × Status :=
  match s.writeRemote with
  | none => (s, ENOSYS)
  | some w =>
    if ¬w.cacheData then (s, ENOSYS)
    else if ¬o.mutexOk then (s, EIO)
    else if ¬o.symlinkOk then (s, EIO)
    else
      let s₁ := addNewEntryToItsDir s dest S_IFLNK o.listing
      let attr : Attr :=
        { mode := Nat.lor S_IFLNK fileMode
          size := symlinkSize
          mtime := o.now
          atime := o.now
          ctime := o.now }
      ({ s₁ with
          files := aupsert s₁.files dest attr
          fileToRemote := aupsert s₁.fileToRemote dest w }, OK)

/-- Oracle for `Utimens`: whether the local cached copy exists, the
`os.Chtimes` outcome, and the new times. -/
structure UtimensOracle where
  localExists : Bool := true
  chtimesOk : Bool := true
  atime : Nat := 0
  mtime : Nat := 0

/-- Embedding of `Utimens`: silently succeeds on directories, updates the
cached attribute when a local cached copy exists. -/
def Utimens (s : FSState) (name : String) (o : UtimensOracle) :
    FSState × Status :=
  match fileDetails s name true with
  | (_, ENOENT) =>
    if (alookup s.dirs name).isSome then (s, OK) else (s, ENOENT)
  | (_, EPERM) => (s, EPERM)
  | (some (attr, r), _) =>
    if ¬r.cacheData then (s, OK)
    else if ¬o.localExists then (s, OK)
    else if ¬o.chtimesOk then (s, EIO)
    else
      ({ s with files :=
          aupsert s.files name { attr with atime := o.atime, mtime := o.mtime } }, OK)
  | (none, st) => (s, st)

/-- Embedding of `Chmod` (ignored: permission check plus directory
fallback, no state change). -/
def Chmod (s : FSState) (name : String) : FSState × Status :=
  match (fileDetails s name true).2 with
  | ENOENT => if (alookup s.dirs name).isSome then (s, OK) else (s, ENOENT)
  | st => (s, st)

/-- Embedding of `Chown` (ignored; same shape as `Chmod`). -/
def Chown (s : FSState) (name : String) : FSState × Status :=
  match (fileDetails s name true).2 with
  | ENOENT => if (alookup s.dirs name).isSome then (s, OK) else (s, ENOENT)
  | st => (s, st)

/-- Embedding of `SetXAttr` (ignored; same shape as `Chmod`). -/
def SetXAttr (s : FSState) (name : String) : FSState × Status :=
  match (fileDetails s name true).2 with
  | ENOENT => if (alookup s.dirs name).isSome then (s, OK) else (s, ENOENT)
  | st => (s, st)

/-- Embedding of `RemoveXAttr` (ignored; same shape as `Chmod`). -/
def RemoveXAttr (s : FSState) (name : String) : FSState × Status :=
  match (fileDetails s name true).2 with
  | ENOENT => if (alookup s.dirs name).isSome then (s, OK) else (s, ENOENT)
  | st => (s, st)

/-- Embedding of `Access` (always succeeds). -/
def Access (s : FSState) (_name : String) : FSState × Status := (s, OK)

/-- The Go `os.O_WRONLY` flag on Linux. -/
def O_WRONLY : Nat := 1

/-- The Go `os.O_RDWR` flag on Linux. -/
def O_RDWR : Nat := 2

/-- The Go `os.O_CREATE` flag on Linux. -/
def O_CREATE : Nat := 64

/-- The Go `os.O_TRUNC` flag on Linux. -/
def O_TRUNC : Nat := 512

/-- The Go `os.O_APPEND` flag on Linux. -/
def O_APPEND : Nat := 1024

/-- Tests a flag bit the way the Go code does
(`int(flags)&os.O_XXX != 0`). -/
def hasFlag (flags c : Nat) : Bool :=
  Nat.land flags c ≠ 0

/-- The write-ability test `Open` and `openCached` repeat: any of
`O_WRONLY`, `O_RDWR`, `O_APPEND`, `O_CREATE`, `O_TRUNC` set. -/
def hasWriteFlag (flags : Nat) : Bool :=
  hasFlag flags O_WRONLY ∨ hasFlag flags O_RDWR ∨ hasFlag flags O_APPEND ∨
    hasFlag flags O_CREATE ∨ hasFlag flags O_TRUNC

/-- Oracle for `openCached`: the lock-file outcome, the size reported by
`os.Stat` of the local cache copy (none when it does not exist), the
whole-file download outcome and the size found after it, the sparse-file
creation and truncation outcomes, the read-through-the-mount outcome for
the append case, and the oracle of the nested `Create` call. Local
failures that the Go code maps through `fuse.ToStatus` are embedded as
EIO. -/
structure OpenOracle where
  mutexOk : Bool := true
  localSize : Option Int := none
  downloadStatus : Status := OK
  postStat : Option Int := none
  createOk : Bool := true
  truncOk : Bool := true
  readThroughOk : Bool := true
  createO : CreateOracle := {}

/-- Embedding of `openCached`: decides whether the local cache copy must
be (re)created, downloads whole or creates sparse, handles the
cache-everything-before-append case, and in all write cases defers to
`Create`. The shared `attr` pointer mutation (`attr.Size = 0`) is
embedded by updating the `files` map and the local attr value
together. -/
def openCached (s : FSState) (r : Remote) (name : String) (flags : Nat)
    (attr : Attr) (o : OpenOracle) : FSState × Option Handle × Status :=
  let remotePath := r.getRemotePath name
  let localPath := r.getLocalPath remotePath
  if ¬o.mutexOk then (s, none, EIO)
  else
    let (create, s, attr) :=
      match o.localSize with
      | none => (true, s, attr)
      | some sz =>
        if sz ≠ Int.ofNat attr.size then
          if hasWriteFlag flags then
            let attr := { attr with size := 0 }
            (true, { s with files := aupsert s.files name attr }, attr)
          else (true, s, attr)
        else (false, s, attr)
    let afterPrep : FSState × Status :=
      if create then
        let s := cacheDelete s localPath
        if ¬r.cacheIsTmp ∨ hasFlag flags O_APPEND then
          -- download whole remote object to disk before the user appends
          if o.downloadStatus ≠ OK then (s, o.downloadStatus)
          else
            match o.postStat with
            | none => (s, EIO)
            | some psz =>
              if psz ≠ Int.ofNat attr.size then (s, EIO)
              else (cacheOverride s localPath ⟨0, Int.ofNat attr.size⟩, OK)
        else
          if ¬o.createOk then (s, EIO)
          else if ¬o.truncOk then (s, EIO)
          else (s, OK)
      else if r.cacheIsTmp ∧ hasFlag flags O_APPEND then
        let unread := cacheUncached s localPath ⟨0, Int.ofNat attr.size⟩
        if unread ≠ [] then
          if ¬o.readThroughOk then (s, EIO) else (s, OK)
        else (s, OK)
      else (s, OK)
    match afterPrep with
    | (s, st) =>
      if st ≠ OK then (s, none, st)
      else if hasWriteFlag flags then
        let (s, _attr) :=
          if ¬hasFlag flags O_APPEND then
            let s := cacheDelete s localPath
            let attr := { attr with size := 0 }
            ({ s with files := aupsert s.files name attr }, attr)
          else (s, attr)
        Create s name (Nat.lor flags O_CREATE) o.createO
      else (s, some ⟨false⟩, OK)

/-- The first block of `openCached` under its own name (the `os.Stat`
comparison deciding whether the cache copy must be (re)created, with the
attribute reset of the write case): used to state the stage lemmas of
the `openCached` proofs. -/
def openCachedPrep (s : FSState) (name : String) (flags : Nat)
    (attr : Attr) (ls : Option Int) : Bool × FSState × Attr :=
  match ls with
  | none => (true, s, attr)
  | some sz =>
    if sz ≠ Int.ofNat attr.size then
      if hasWriteFlag flags then
        let attr := { attr with size := 0 }
        (true, { s with files := aupsert s.files name attr }, attr)
      else (true, s, attr)
    else (false, s, attr)

/-- The middle block of `openCached` under its own name (the download or
sparse-creation of the local copy, and the read-through of the
cache-everything-before-append case). -/
def openCachedDownload (s : FSState) (r : Remote) (flags : Nat)
    (attr : Attr) (o : OpenOracle) (localPath : String) (create : Bool) :
    FSState × Status :=
  if create then
    let s := cacheDelete s localPath
    if ¬r.cacheIsTmp ∨ hasFlag flags O_APPEND then
      if o.downloadStatus ≠ OK then (s, o.downloadStatus)
      else
        match o.postStat with
        | none => (s, EIO)
        | some psz =>
          if psz ≠ Int.ofNat attr.size then (s, EIO)
          else (cacheOverride s localPath ⟨0, Int.ofNat attr.size⟩, OK)
    else
      if ¬o.createOk then (s, EIO)
      else if ¬o.truncOk then (s, EIO)
      else (s, OK)
  else if r.cacheIsTmp ∧ hasFlag flags O_APPEND then
    let unread := cacheUncached s localPath ⟨0, Int.ofNat attr.size⟩
    if unread ≠ [] then
      if ¬o.readThroughOk then (s, EIO) else (s, OK)
    else (s, OK)
  else (s, OK)

/-- The final block of `openCached` under its own name (failure
propagation, the truncate-on-write reset and the deferral to
`Create`). -/
def openCachedFinish (name : String) (flags : Nat) (attr : Attr)
    (o : OpenOracle) (localPath : String) (ast : FSState × Status) :
    FSState × Option Handle × Status :=
  match ast with
  | (s, st) =>
    if st ≠ OK then (s, none, st)
    else if hasWriteFlag flags then
      let (s, _attr) :=
        if ¬hasFlag flags O_APPEND then
          let s := cacheDelete s localPath
          let attr := { attr with size := 0 }
          ({ s with files := aupsert s.files name attr }, attr)
        else (s, attr)
      Create s name (Nat.lor flags O_CREATE) o.createO
    else (s, some ⟨false⟩, OK)

/-- Embedding of `Open`: looks the file up (checking writability when any
write-ish flag is set), builds a cached or remote handle, and wraps the
handle with `nodefs.NewReadOnlyFile` unless the owning remote is
writeable and `O_WRONLY` or `O_RDWR` is set. -/
def Open (s : FSState) (name : String) (flags : Nat) (o : OpenOracle) :
    FSState × Option Handle × Status :=
  let checkWritable := hasWriteFlag flags
  match fileDetails s name checkWritable with
  | (some (attr, r), OK) =>
    let (s₁, file, st) :=
      if r.cacheData then openCached s r name flags attr o
      else (s, some ⟨false⟩, OK)
    let file :=
      if ¬r.write ∨ (¬hasFlag flags O_WRONLY ∧ ¬hasFlag flags O_RDWR) then
        file.map (fun _ => ⟨true⟩)
      else file
    (s₁, file, st)
  | (_, st) => (s, none, st)

/-- Embedding of the `Target` configuration struct (credential fields are
not consulted by the modelled code paths). -/
structure TargetConf where
  target : String
  region : String := ""
  cacheData : Bool := false
  cacheDir : String := ""
  write : Bool := false
deriving DecidableEq, Repr

/-- Finds the first "://" in a character list and returns what follows
it, or `none` when there is no scheme separator. -/
def breakScheme : List Char → Option (List Char)
  | ':' :: '/' :: '/' :: rest => some rest
  | _ :: rest => breakScheme rest
  | [] => none

/-- Models `net/url.Parse` for the `scheme://host/bucket/sub/path`
targets muxfys documents: returns the host and the path (with its
leading slash). A scheme-less string parses to an empty host with the
whole string as path, as with `url.Parse`. -/
def parseTargetURL (t : String) : String × String :=
  match breakScheme t.data with
  | none => ("", t)
  | some after =>
    (⟨after.takeWhile (fun ch => ch ≠ ('/' : Char))⟩,
      ⟨after.dropWhile (fun ch => ch ≠ ('/' : Char))⟩)

/-- The bucket and base-path derivation of `CreateRemote`: the first
component of the URL path after its leading slash is the bucket, the
rest is the base path (`path.Join` of the remaining parts). -/
def bucketAndBase (upath : String) : String × String :=
  if upath.length > 1 then
    match splitOnChar '/' (upath.drop 1) with
    | [] => ("", "")
    | b :: ps => (b, String.intercalate "/" ps)
  else ("", "")

/-- Embedding of `Target.CreateRemote` (library source): target and
bucket validation, the `CacheData` derivation (`CacheData`, a set
`CacheDir` or `Write` all enable caching) and the ephemeral-cache
decision. The disk effects (home expansion, `MkdirAll`, `TempDir`) and
the minio client construction are elided; a `TempDir`-chosen cache
directory is embedded by the fixed name ".muxfys_cache". -/
def CreateRemote (t : TargetConf) : Except String Remote :=
  if t.target = "" then .error "no Target defined"
  else if (bucketAndBase (parseTargetURL t.target).2).1 = "" then
    .error ("no bucket could be determined from [" ++ t.target ++ "]")
  else
    .ok { host := (parseTargetURL t.target).1
          bucket := (bucketAndBase (parseTargetURL t.target).2).1
          basePath := (bucketAndBase (parseTargetURL t.target).2).2
          cacheDir :=
            if (t.cacheData ∨ t.cacheDir ≠ "" ∨ t.write) ∧ t.cacheDir = ""
            then ".muxfys_cache" else t.cacheDir
          cacheData := t.cacheData ∨ t.cacheDir ≠ "" ∨ t.write
          cacheIsTmp := (t.cacheData ∨ t.cacheDir ≠ "" ∨ t.write) ∧ t.cacheDir = ""
          write := t.write }

/-- The remote-construction loop of `New`: creates one remote per target
in order and rejects a second writeable target. -/
def NewLoop : List TargetConf → List Remote → Option Remote →
    Except String (List Remote × Option Remote)
  | [], acc, w => .ok (acc, w)
  | t :: ts, acc, w =>
    match CreateRemote t with
    | .error e => .error e
    | .ok r =>
      let acc := acc ++ [r]
      if r.write then
        match w with
        | some _ => .error "you can't have more than one writeable target"
        | none => NewLoop ts acc (some r)
      else NewLoop ts acc w

/-- Embedding of `New` (library source): requires at least one target and
builds the remote list and the writeable remote. The mount-point disk
handling (home expansion, `MkdirAll`, emptiness check) and logger setup
are elided; they precede the modelled loop and can only fail it
earlier. -/
def New (targets : List TargetConf) :
    Except String (List Remote × Option Remote) :=
  if targets.isEmpty then .error "no targets provided"
  else NewLoop targets [] none

/-- Embedding of `Mount` together with the `OnMount` callback it
triggers: refuses a second mount, then seeds the root directory with all
remotes (FUSE server construction is elided). -/
def Mount (s : FSState) : FSState × Option String :=
  if s.mounted then (s, some "Can't mount more that once at a time\n")
  else ({ s with dirs := aupsert s.dirs "" s.remotes, mounted := true }, none)

/-- The `Mtime` consulted by the sort in `uploadCreated`
(`fs.files[name].Mtime`); a missing entry would be a nil dereference in
Go and is unreachable while the created-files invariant holds. -/
def mtimeOf (s : FSState) (name : String) : Nat :=
  match alookup s.files name with
  | some a => a.mtime
  | none => 0

/-- Insertion step of an ascending-by-mtime insertion sort. -/
def insertByMtime (s : FSState) (x : String) : List String → List String
  | [] => [x]
  | y :: ys =>
    if mtimeOf s x < mtimeOf s y then x :: y :: ys
    else y :: insertByMtime s x ys

/-- Embedding of the `sort.Slice` call in `uploadCreated` (ascending by
`Mtime`; the Go sort is unstable, so any ascending arrangement is a
faithful embedding; insertion sort realises one). -/
def sortByMtime (s : FSState) : List String → List String
  | [] => []
  | x :: xs => insertByMtime s x (sortByMtime s xs)

/-- Embedding of `uploadCreated` (library source): with a writeable
cached remote, sorts the created files by mtime, uploads each (outcome
per path from the oracle), drops uploaded paths from `createdFiles`,
counts failures, and reports them in an error. -/
def uploadCreated (s : FSState) (uploadOk : String → Bool) :
    FSState × Option String :=
  match s.writeRemote with
  | some w =>
    if w.cacheData then
      let names := s.createdFiles
      let names := if names.length > 1 then sortByMtime s names else names
      let step := fun (acc : List String × Nat) name =>
        let (cf, fails) := acc
        if uploadOk name then (setErase cf name, fails) else (cf, fails + 1)
      let (cf, fails) := names.foldl step (s.createdFiles, 0)
      let s₁ := { s with createdFiles := cf }
      if fails > 0 then
        (s₁, some ("failed to upload " ++ toString fails ++ " files\n"))
      else (s₁, none)
    else (s, none)
  | none => (s, none)

/-- Combination of the kernel-unmount error and the upload error in
`Unmount` (`fmt.Errorf` with "%s; %s"). -/
def combineErr : Option String → Option String → Option String
  | none, e => e
  | some e, none => some e
  | some e, some u => some (e ++ "; " ++ u)

/-- The signal step of `Unmount`: the `ignoreSignals` handshake with the
signal goroutine, embedded by clearing `handlingSignals`. -/
def unmountSignals (s : FSState) : FSState :=
  if s.handlingSignals then { s with handlingSignals := false } else s

/-- The kernel step of `Unmount`: ask the FUSE server to unmount (oracle
outcome) and clear `mounted` on success. -/
def unmountKernel (s : FSState) (serverErr : Option String) :
    FSState × Option String :=
  if s.mounted then
    match serverErr with
    | none => ({ s with mounted := false }, none)
    | some e => (s, some e)
  else (s, none)

/-- The upload step of `Unmount`: run the deferred uploads unless asked
not to. -/
def unmountUploads (s : FSState) (doNotUpload : Bool)
    (uploadOk : String → Bool) : FSState × Option String :=
  if ¬doNotUpload then uploadCreated s uploadOk else (s, none)

/-- The final step of `Unmount`: clean out all the namespace maps. -/
def unmountWipe (s : FSState) : FSState :=
  { s with dirs := [], dirContents := [], files := [], fileToRemote := [],
           createdFiles := [], createdDirs := [] }

/-- Embedding of `Unmount` (library source): stops signal handling,
unmounts the kernel server (oracle outcome), runs the deferred uploads
unless asked not to, combines the two error sources, and wipes every
namespace map. Ephemeral cache-dir deletion is a disk effect and is
elided. -/
def Unmount (s : FSState) (doNotUpload : Bool) (serverErr : Option String)
    (uploadOk : String → Bool) : FSState × Option String :=
  let s₁ := unmountSignals s
  let (s₂, err₁) := unmountKernel s₁ serverErr
  let (s₃, err₂) := unmountUploads s₂ doNotUpload uploadOk
  (unmountWipe s₃, combineErr err₁ err₂)

/-- Embedding of `UnmountOnDeath` (library source): a no-op unless
mounted and not already handling signals; otherwise records the signal
registration (the signal channel and goroutine are embedded by the
`handlingSignals` flag they maintain). -/
def UnmountOnDeath (s : FSState) : FSState :=
  if ¬s.mounted ∨ s.handlingSignals then s
  else { s with handlingSignals := true }

/-- Namespace invariant 1 (spec section 8): every path in `files` has an
owning remote recorded in `fileToRemote`, and that remote is one of the
configured remotes. -/
def inv1 (s : FSState) : Prop :=
  ∀ pa ∈ s.files, ∃ r ∈ s.remotes, alookup s.fileToRemote pa.1 = some r

/-- Namespace invariant 2 (spec section 8): every created file is a known
file and is owned by the writeable remote. -/
def inv2 (s : FSState) : Prop :=
  ∀ p ∈ s.createdFiles,
    (alookup s.files p).isSome = true ∧ alookup s.fileToRemote p = s.writeRemote

/-- The namespace invariant of claim C2: invariants 1 and 2 together. -/
def nsInv (s : FSState) : Prop := inv1 s ∧ inv2 s

/-- Structural well-formedness of a state, established by `New`, `Mount`
and `OnMount`: every remote recorded in `dirs` is configured, the
writeable remote is the unique configured remote with `write` set, and
`files` and `fileToRemote` bind the same keys (the Go code always
updates them together). -/
def StateWF (s : FSState) : Prop :=
  (∀ prs ∈ s.dirs, ∀ r ∈ prs.2, r ∈ s.remotes) ∧
  (∀ r ∈ s.remotes, r.write = true → s.writeRemote = some r) ∧
  (∀ w ∈ s.writeRemote.toList, w ∈ s.remotes ∧ w.write = true) ∧
  (∀ pa ∈ s.files, (alookup s.fileToRemote pa.1).isSome = true) ∧
  (∀ pr ∈ s.fileToRemote, (alookup s.files pr.1).isSome = true)

instance (s : FSState) : Decidable (inv1 s) := by
  unfold inv1; infer_instance

instance (s : FSState) : Decidable (inv2 s) := by
  unfold inv2; infer_instance

instance (s : FSState) : Decidable (nsInv s) := by
  unfold nsInv; infer_instance

instance (s : FSState) : Decidable (StateWF s) := by
  unfold StateWF; infer_instance

/-- The registration decision `openDir` takes for one listed object:
`none` when the object is skipped, otherwise the directory entry
appended to the listed directory, the joined child path, and whether the
child is a regular file. -/
def entryAction (name rp : String) (obj : RemoteAttr) :
    Option (DirEntry × String × Bool) :=
  if obj.name = name then none
  else
    let dname := obj.name.drop rp.length
    if dname = "" then none
    else if endsWithSlash dname then
      some (⟨dname.dropRight 1, S_IFDIR⟩, joinPath name (dname.dropRight 1), false)
    else some (⟨dname, S_IFREG⟩, joinPath name dname, true)

/-- The directory entries one listing contributes, in listing order. -/
def entriesFor (name rp : String) (objects : List RemoteAttr) : List DirEntry :=
  objects.filterMap (fun o => (entryAction name rp o).map (·.1))

/-- The regular-file child paths one listing registers in `files`. -/
def regFilePaths (name rp : String) (objects : List RemoteAttr) : List String :=
  objects.filterMap (fun o =>
    match entryAction name rp o with
    | some (_, p, true) => some p
    | _ => none)

/-- A listing oracle is fresh for a set of paths when no remote's listing
of the directory registers one of those paths as a regular file. The
created files of a mount are new objects the snapshot listings of this
mount never advertised, so listings are fresh for `createdFiles`. -/
def FreshFor (forbidden : List String) (name : String)
    (listing : ListingOracle) : Prop :=
  ∀ r : Remote, ∀ p ∈ regFilePaths name (remotePrefix r name) (listing r).objects,
    p ∉ forbidden

/-- Example fixture: a read-only uncached remote. -/
def exR1 : Remote :=
  { host := "h", bucket := "b1", basePath := "", cacheDir := "",
    cacheData := false, cacheIsTmp := false, write := false }

/-- Example fixture: a writeable cached remote with a user cache dir. -/
def exR2 : Remote :=
  { host := "h", bucket := "b2", basePath := "", cacheDir := "c",
    cacheData := true, cacheIsTmp := false, write := true }

/-- Example fixture: the attribute of a five-byte file with mtime 10. -/
def exAttr5 : Attr :=
  { size := 5, mtime := 10, atime := 10, ctime := 10, mode := 33152 }

/-- Example fixture: a mounted two-remote state in which the file "p" is
owned by the read-only remote. -/
def exS0 : FSState :=
  { remotes := [exR1, exR2], writeRemote := some exR2
    dirs := [("", [exR1, exR2])]
    dirContents := [("", [⟨"p", S_IFREG⟩])]
    files := [("p", exAttr5)]
    fileToRemote := [("p", exR1)]
    mounted := true }

/-- Example fixture: a mounted two-remote state in which "f" is owned by
the writeable cached remote and "p" by the read-only remote. -/
def exSf : FSState :=
  { remotes := [exR1, exR2], writeRemote := some exR2
    dirs := [("", [exR1, exR2])]
    dirContents := [("", [⟨"f", S_IFREG⟩, ⟨"p", S_IFREG⟩])]
    files := [("f", exAttr5), ("p", exAttr5)]
    fileToRemote := [("f", exR2), ("p", exR1)]
    mounted := true }

/-- Example fixture: `exSf` with "f" recorded as created during the
mount. -/
def exSfc : FSState :=
  { exSf with createdFiles := ["f"] }

/-- Example fixture: a mounted writeable cached state with one created
file pending upload. -/
def exSu : FSState :=
  { remotes := [exR2], writeRemote := some exR2
    files := [("created.file", exAttr5)]
    fileToRemote := [("created.file", exR2)]
    createdFiles := ["created.file"]
    mounted := true }

/-- Example fixture: a state in which the non-root directory "sub" is
known (advertised by a sibling listing) but never listed. -/
def exS4 : FSState :=
  { remotes := [exR1], writeRemote := none
    dirs := [("", [exR1]), ("sub", [exR1])]
    dirContents := [("", [⟨"sub", S_IFDIR⟩])]
    mounted := true }

/-- Example fixture: directory contents with three entries, for the
removal-order counterexample. -/
def exS3 : FSState :=
  { remotes := [exR2], writeRemote := some exR2
    dirs := [("", [exR2])]
    dirContents := [("", [⟨"a", S_IFREG⟩, ⟨"b", S_IFREG⟩, ⟨"c", S_IFREG⟩])] }

theorem alookup_aupsert_self {α : Type} (m : List (String × α)) (k : String)
    (v : α) : alookup (aupsert m k v) k = some v := by
  induction m with
  | nil => simp [aupsert, alookup]
  | cons kv rest ih =>
    obtain ⟨k₁, v₁⟩ := kv
    by_cases h : k₁ = k <;> simp [aupsert, alookup, h, ih]

theorem alookup_aupsert_ne {α : Type} (m : List (String × α)) (k k' : String)
    (v : α) (h : k' ≠ k) : alookup (aupsert m k v) k' = alookup m k' := by
  induction m with
  | nil => simp [aupsert, alookup, Ne.symm h]
  | cons kv rest ih =>
    obtain ⟨k₁, v₁⟩ := kv
    by_cases h₁ : k₁ = k
    · subst h₁
      simp [aupsert, alookup, Ne.symm h]
    · simp only [aupsert, if_neg h₁, alookup]
      by_cases h₂ : k₁ = k' <;> simp [h₂, ih]

theorem alookup_aerase_self {α : Type} (m : List (String × α)) (k : String) :
    alookup (aerase m k) k = none := by
  induction m with
  | nil => simp [aerase, alookup]
  | cons kv rest ih =>
    obtain ⟨k₁, v₁⟩ := kv
    by_cases h : k₁ = k <;> simp_all [aerase, alookup, List.filter]

theorem alookup_aerase_ne {α : Type} (m : List (String × α)) (k k' : String)
    (h : k' ≠ k) : alookup (aerase m k) k' = alookup m k' := by
  induction m with
  | nil => simp [aerase, alookup]
  | cons kv rest ih =>
    obtain ⟨k₁, v₁⟩ := kv
    by_cases h₁ : k₁ = k
    · subst h₁
      have : ¬k₁ = k' := fun he => h he.symm
      simp_all [aerase, alookup, List.filter]
    · by_cases h₂ : k₁ = k' <;> simp_all [aerase, alookup, List.filter]

theorem mem_aupsert {α : Type} {m : List (String × α)} {k : String} {v : α}
    {pa : String × α} (h : pa ∈ aupsert m k v) : pa = (k, v) ∨ pa ∈ m := by
  induction m with
  | nil => simpa [aupsert] using h
  | cons kv rest ih =>
    obtain ⟨k₁, v₁⟩ := kv
    by_cases h₁ : k₁ = k
    · simp only [aupsert, if_pos h₁, List.mem_cons] at h
      rcases h with h | h
      · exact Or.inl h
      · exact Or.inr (List.mem_cons_of_mem _ h)
    · simp only [aupsert, if_neg h₁, List.mem_cons] at h
      rcases h with h | h
      · exact Or.inr (by simp [h])
      · rcases ih h with h | h
        · exact Or.inl h
        · exact Or.inr (List.mem_cons_of_mem _ h)

theorem mem_aerase {α : Type} {m : List (String × α)} {k : String}
    {pa : String × α} (h : pa ∈ aerase m k) : pa ∈ m ∧ pa.1 ≠ k := by
  unfold aerase at h
  have h₂ := List.of_mem_filter h
  exact ⟨List.mem_of_mem_filter h, by simpa using h₂⟩

theorem alookup_mem {α : Type} {m : List (String × α)} {k : String} {v : α}
    (h : alookup m k = some v) : (k, v) ∈ m := by
  induction m with
  | nil => simp [alookup] at h
  | cons kv rest ih =>
    obtain ⟨k₁, v₁⟩ := kv
    by_cases h₁ : k₁ = k
    · subst h₁
      simp only [alookup, if_true, eq_self_iff_true, Option.some.injEq] at h
      cases h
      exact List.mem_cons_self _ _
    · simp only [alookup, if_neg h₁] at h
      exact List.mem_cons_of_mem _ (ih h)

theorem alookup_isSome_aupsert {α : Type} (m : List (String × α))
    (k p : String) (v : α) (h : (alookup m p).isSome = true) :
    (alookup (aupsert m k v) p).isSome = true := by
  by_cases hp : p = k
  · subst hp; simp [alookup_aupsert_self]
  · rwa [alookup_aupsert_ne m k p v hp]

theorem mem_setInsert {l : List String} {p q : String}
    (h : q ∈ setInsert l p) : q = p ∨ q ∈ l := by
  unfold setInsert at h
  by_cases hp : p ∈ l
  · simp only [if_pos hp] at h
    exact Or.inr h
  · simp only [if_neg hp, List.mem_append, List.mem_singleton] at h
    tauto

theorem mem_setErase {l : List String} {p q : String}
    (h : q ∈ setErase l p) : q ∈ l ∧ q ≠ p := by
  unfold setErase at h
  have h₂ := List.of_mem_filter h
  exact ⟨List.mem_of_mem_filter h, by simpa using h₂⟩

/-- Claim C9 (code bug evaluation): `StatFs` does return the same
constant statistics for every input name, with 10^9 total and free
inodes and equal free and available block counts, but the reported
volume is not 1 PB: the Go literal assigns the `blockSize` constant to
the `Blocks` field and the `ioSize` constant to `Bsize`, so total blocks
times block size is 2^32 bytes (4 GiB), although the `totalBlocks`
constant (commented as 1PB / blockSize) was defined so that
`totalBlocks * blockSize` is 2^50 bytes (1 PB as a binary petabyte; the
decimal reading 10^15 fails as well). -/
theorem C9_statfs_constant_but_not_one_petabyte :
    (∀ name : String, StatFs name = StatFs "") ∧
    (StatFs "").files = 10 ^ 9 ∧
    (StatFs "").ffree = 10 ^ 9 ∧
    (StatFs "").bfree = (StatFs "").bavail ∧
    (StatFs "").blocks * (StatFs "").bsize = 2 ^ 32 ∧
    ((2 : Nat) ^ 32 ≠ 2 ^ 50 ∧ (2 : Nat) ^ 32 ≠ 10 ^ 15) ∧
    totalBlocks * blockSize = 2 ^ 50 := by
  refine ⟨fun _ => rfl, ?_, ?_, ?_, ?_, ⟨?_, ?_⟩, ?_⟩ <;> norm_num [StatFs,
    blockSize, totalBlocks, inodes, ioSize]

/-- Claim C1 (code bug evaluation): unmounting a writeable cached mount
with one created file whose upload fails returns the upload-failure
error, but its message carries a trailing newline
("failed to upload 1 files\n"), which is not the message
"failed to upload 1 files" the claim (and the test in the repository)
states. The other parts of the claim hold at this input: at the
`uploadCreated` stage a failed path remains in `createdFiles` and a
successful upload removes it. -/
theorem C1_upload_failure_message_has_trailing_newline :
    (Unmount exSu false none (fun _ => false)).2 =
      some "failed to upload 1 files\n" ∧
    some "failed to upload 1 files\n" ≠
      (some "failed to upload 1 files" : Option String) ∧
    (uploadCreated exSu (fun _ => false)).1.createdFiles = ["created.file"] ∧
    (uploadCreated exSu (fun _ => true)).1.createdFiles = [] := by
  refine ⟨by decide, by decide, by decide, by decide⟩

/-- Claim C8 counterexample: removing the first of the three entries
a, b, c from a directory leaves the entries in the order c, b — the Go
code moves the last entry into the removed slot — while an
order-preserving removal would leave b, c. -/
theorem C8_counterexample_removal_reorders :
    alookup (rmEntryFromItsDir exS3 "a").dirContents "" =
      some [⟨"c", S_IFREG⟩, ⟨"b", S_IFREG⟩] ∧
    ([(⟨"c", S_IFREG⟩ : DirEntry), ⟨"b", S_IFREG⟩] ≠
      ([⟨"a", S_IFREG⟩, ⟨"b", S_IFREG⟩, ⟨"c", S_IFREG⟩] : List DirEntry).filter
        (fun e => e.name ≠ "a")) := by
  refine ⟨by decide, by decide⟩

/-- Claim C6 counterexample: for the known file "f" of size 5 owned by
the writeable cached remote, `Truncate` at offset 5 (an offset with
off ≥ attr.size) returns OK but is not a no-op — it adds the path to
`createdFiles` and bumps the mtime; and for the file "p" owned by a
read-only remote, `Truncate` at offset 7 ≥ 5 returns EPERM rather than
OK. -/
theorem C6_counterexample_truncate_at_size_mutates :
    5 ≥ exAttr5.size ∧
    (Truncate exSf "f" 5 { now := 99 }).2 = OK ∧
    (Truncate exSf "f" 5 { now := 99 }).1.createdFiles ≠ exSf.createdFiles ∧
    (alookup (Truncate exSf "f" 5 { now := 99 }).1.files "f").map Attr.mtime ≠
      (alookup exSf.files "f").map Attr.mtime ∧
    7 ≥ exAttr5.size ∧
    (Truncate exSf "p" 7 {}).2 = EPERM := by
  refine ⟨by decide, by decide, by decide, by decide, by decide, by decide⟩

/-- Claim C3 counterexample: when the remote delete fails (EIO), `Unlink`
on the known, write-remote-owned file "f" returns the failure and leaves
the path in `files`, `fileToRemote` and the parent's directory entries,
instead of scrubbing the namespace as the claim states. -/
theorem C3_counterexample_failed_delete_keeps_entry :
    (Unlink exSf "f" Status.EIO).2 = Status.EIO ∧
    (alookup (Unlink exSf "f" Status.EIO).1.files "f").isSome = true ∧
    (alookup (Unlink exSf "f" Status.EIO).1.fileToRemote "f").isSome = true ∧
    (Unlink exSf "f" Status.EIO).1.dirContents = exSf.dirContents := by
  refine ⟨by decide, by decide, by decide, by decide⟩

/-- Claim C2 counterexample: in a well-formed two-remote state satisfying
both namespace invariants, the `Create` callback on the path "p" already
present in `files` and owned by the read-only remote adds "p" to
`createdFiles` without repointing its owner, violating invariant 2; and
the `Rename` callback that renames the read-only-owned "p" onto the
created path "f" repoints the owner of "f" to the read-only remote while
"f" stays in `createdFiles`, violating invariant 2 as well. -/
theorem C2_counterexample_create_and_rename_break_invariant :
    (StateWF exS0 ∧ nsInv exS0 ∧ ¬nsInv (Create exS0 "p" 0 {}).1) ∧
    (StateWF exSfc ∧ nsInv exSfc ∧ (Rename exSfc "p" "f" {}).2 = OK ∧
      ¬nsInv (Rename exSfc "p" "f" {}).1) := by
  refine ⟨⟨by decide, by decide, by decide⟩, by decide, by decide, by decide,
    by decide⟩

theorem combineErr_eq_none {a b : Option String}
    (h : combineErr a b = none) : a = none ∧ b = none := by
  cases a <;> cases b <;> simp_all [combineErr]

theorem uploadCreated_mounted (s : FSState) (uo : String → Bool) :
    (uploadCreated s uo).1.mounted = s.mounted := by
  unfold uploadCreated
  rcases s.writeRemote with _ | w
  · rfl
  · dsimp only
    split
    · split <;> split <;> rfl
    · rfl

theorem uploadCreated_of_no_created (s : FSState) (uo : String → Bool)
    (h : s.createdFiles = []) : uploadCreated s uo = (s, none) := by
  unfold uploadCreated
  rcases hw : s.writeRemote with _ | w
  · rfl
  · dsimp only
    split
    · rw [h]
      have h1 : ¬([] : List String).length > 1 := by simp
      rw [if_neg h1]
      dsimp only [List.foldl_nil]
      have h0 : ¬(0 : Nat) > 0 := by omega
      rw [if_neg h0]
      rw [← hw, ← h]
    · rfl

theorem unmountSignals_fields (s : FSState) :
    (unmountSignals s).mounted = s.mounted ∧
    (unmountSignals s).createdFiles = s.createdFiles := by
  unfold unmountSignals
  split <;> exact ⟨rfl, rfl⟩

theorem unmountKernel_fields (s : FSState) (so : Option String) :
    (unmountKernel s so).1.createdFiles = s.createdFiles ∧
    (unmountKernel s so).1.writeRemote = s.writeRemote := by
  unfold unmountKernel
  split
  · cases so <;> exact ⟨rfl, rfl⟩
  · exact ⟨rfl, rfl⟩

theorem unmountKernel_not_mounted (s : FSState) (so : Option String)
    (h : s.mounted = false) : unmountKernel s so = (s, none) := by
  unfold unmountKernel
  simp [h]

theorem unmountKernel_ok_mounted (s : FSState) (so : Option String)
    (h : (unmountKernel s so).2 = none) :
    (unmountKernel s so).1.mounted = false := by
  unfold unmountKernel at *
  by_cases hm : s.mounted
  · cases so <;> simp_all
  · simp_all

theorem Unmount_eq (s : FSState) (k : Bool) (so : Option String)
    (uo : String → Bool) :
    Unmount s k so uo =
      (unmountWipe (unmountUploads (unmountKernel (unmountSignals s) so).1
          k uo).1,
        combineErr (unmountKernel (unmountSignals s) so).2
          (unmountUploads (unmountKernel (unmountSignals s) so).1 k uo).2) :=
  rfl

theorem unmountUploads_mounted (s : FSState) (k : Bool)
    (uo : String → Bool) : (unmountUploads s k uo).1.mounted = s.mounted := by
  unfold unmountUploads
  split
  · exact uploadCreated_mounted s uo
  · rfl

/-- Claim C7: after a first `Unmount` that succeeds, any second `Unmount`
returns no error (the first leaves the state unmounted with all maps
wiped, so the second skips the kernel unmount and has nothing to
upload); and a repeat `UnmountOnDeath` while the first registration is
active is the identity, so two calls are equivalent to one. -/
theorem C7_unmount_and_unmount_on_death_idempotent :
    (∀ (s : FSState) (k : Bool) (so : Option String) (uo : String → Bool),
      (Unmount s k so uo).2 = none →
      ∀ (k₂ : Bool) (so₂ : Option String) (uo₂ : String → Bool),
        (Unmount (Unmount s k so uo).1 k₂ so₂ uo₂).2 = none) ∧
    (∀ s : FSState, UnmountOnDeath (UnmountOnDeath s) = UnmountOnDeath s) := by
  constructor
  · intro s k so uo h k₂ so₂ uo₂
    rw [Unmount_eq] at h
    obtain ⟨h₁, _⟩ := combineErr_eq_none h
    -- the state after the first call: unmounted (since it succeeded) and
    -- with empty createdFiles (the wipe step)
    have hm : (Unmount s k so uo).1.mounted = false := by
      rw [Unmount_eq]
      show (unmountWipe _).mounted = false
      show (unmountUploads _ _ _).1.mounted = false
      rw [unmountUploads_mounted]
      exact unmountKernel_ok_mounted _ _ h₁
    have hcf : (Unmount s k so uo).1.createdFiles = [] := by
      rw [Unmount_eq]
      rfl
    rw [Unmount_eq]
    dsimp only
    rw [unmountKernel_not_mounted _ so₂
      (by rw [(unmountSignals_fields _).1]; exact hm)]
    dsimp only
    unfold unmountUploads
    split
    · rw [uploadCreated_of_no_created _ _
        (by rw [(unmountSignals_fields _).2]; exact hcf)]
      rfl
    · rfl
  · intro s
    by_cases hc : ¬s.mounted = true ∨ s.handlingSignals = true
    · unfold UnmountOnDeath
      rw [if_pos hc, if_pos hc]
    · unfold UnmountOnDeath
      rw [if_neg hc, if_pos (Or.inr rfl)]

/-- Witness for C7: a successful unmount of the example created-file
state followed by a second unmount, with concrete oracles. -/
theorem C7_witness :
    (Unmount (Unmount exSu false none (fun _ => true)).1 false none
      (fun _ => false)).2 = none ∧
    UnmountOnDeath (UnmountOnDeath exSu) = UnmountOnDeath exSu :=
  ⟨C7_unmount_and_unmount_on_death_idempotent.1 exSu false none
      (fun _ => true) (by decide) false none (fun _ => false),
    C7_unmount_and_unmount_on_death_idempotent.2 exSu⟩

theorem CreateRemote_write {t : TargetConf} {r : Remote}
    (h : CreateRemote t = .ok r) : r.write = t.write := by
  unfold CreateRemote at h
  by_cases h₁ : t.target = ""
  · rw [if_pos h₁] at h
    cases h
  · rw [if_neg h₁] at h
    by_cases h₂ : (bucketAndBase (parseTargetURL t.target).2).1 = ""
    · rw [if_pos h₂] at h
      cases h
    · rw [if_neg h₂] at h
      cases h
      rfl

theorem NewLoop_ok_count (ts : List TargetConf) :
    ∀ (acc : List Remote) (w : Option Remote) (rs : List Remote)
      (w₂ : Option Remote), NewLoop ts acc w = .ok (rs, w₂) →
      rs.countP (fun r => r.write) ≤
        acc.countP (fun r => r.write) + (if w.isSome then 0 else 1) := by
  induction ts with
  | nil =>
    intro acc w rs w₂ h
    unfold NewLoop at h
    cases h
    split <;> omega
  | cons t ts ih =>
    intro acc w rs w₂ h
    unfold NewLoop at h
    rcases hc : CreateRemote t with e | r
    · rw [hc] at h
      cases h
    · rw [hc] at h
      dsimp only at h
      by_cases hrw : r.write = true
      · rw [if_pos hrw] at h
        rcases w with _ | w₀
        · have := ih (acc ++ [r]) (some r) rs w₂ h
          simp only [List.countP_append, List.countP_cons, List.countP_nil,
            hrw, Option.isSome_none, Option.isSome_some, Bool.false_eq_true,
            if_false, if_true] at this ⊢
          omega
        · cases h
      · rw [if_neg hrw] at h
        have hw0 : r.write = false := by
          simpa using hrw
        have := ih (acc ++ [r]) w rs w₂ h
        simp only [List.countP_append, List.countP_cons, List.countP_nil,
          hw0] at this
        simp only [Bool.false_eq_true, if_false] at this
        omega

theorem NewLoop_second_write_errors (ts : List TargetConf) :
    ∀ (acc : List Remote) (w : Option Remote),
      (∀ t ∈ ts, ∃ r, CreateRemote t = .ok r) →
      ((w.isSome = true ∧ ∃ t ∈ ts, t.write = true) ∨
        (w = none ∧ 2 ≤ ts.countP (fun t => t.write))) →
      NewLoop ts acc w =
        .error "you can't have more than one writeable target" := by
  induction ts with
  | nil =>
    intro acc w _ hd
    rcases hd with ⟨_, t, ht, _⟩ | ⟨_, hcount⟩
    · cases ht
    · simp [List.countP_nil] at hcount
  | cons t ts ih =>
    intro acc w hok hd
    obtain ⟨r, hr⟩ := hok t (List.mem_cons_self _ _)
    have hw := CreateRemote_write hr
    unfold NewLoop
    rw [hr]
    dsimp only
    by_cases htw : t.write = true
    · rw [if_pos (hw.trans htw)]
      rcases w with _ | w₀
      · -- first writeable target found here; a second one remains in ts
        have hcount : 2 ≤ (t :: ts).countP (fun t => t.write) := by
          rcases hd with ⟨hsome, _⟩ | ⟨_, hc⟩
          · simp at hsome
          · exact hc
        have hts : 0 < ts.countP (fun t => t.write) := by
          simp only [List.countP_cons, htw, if_true] at hcount
          omega
        have hex : ∃ t₂ ∈ ts, t₂.write = true := by
          rw [List.countP_pos_iff] at hts
          obtain ⟨t₂, ht₂, hp⟩ := hts
          exact ⟨t₂, ht₂, by simpa using hp⟩
        exact ih (acc ++ [r]) (some r)
          (fun t₂ ht₂ => hok t₂ (List.mem_cons_of_mem _ ht₂))
          (Or.inl ⟨rfl, hex⟩)
      · rfl
    · rw [hw]
      rw [if_neg htw]
      refine ih (acc ++ [r]) w
        (fun t₂ ht₂ => hok t₂ (List.mem_cons_of_mem _ ht₂)) ?_
      rcases hd with ⟨hsome, t₂, ht₂, htw₂⟩ | ⟨hnone, hc⟩
      · rcases List.mem_cons.mp ht₂ with rfl | ht₂
        · exact absurd htw₂ htw
        · exact Or.inl ⟨hsome, t₂, ht₂, htw₂⟩
      · refine Or.inr ⟨hnone, ?_⟩
        have htw0 : t.write = false := by
          simpa using htw
        simp only [List.countP_cons, htw0, Bool.false_eq_true, if_false] at hc
        omega

/-- Claim C4: constructing a mount from a configuration whose targets all
parse but in which two or more have `write = true` fails with the error
"you can't have more than one writeable target"; and whenever `New`
succeeds, at most one of the constructed remote bindings is
writeable. -/
theorem C4_at_most_one_writeable_target :
    (∀ ts : List TargetConf, (∀ t ∈ ts, ∃ r, CreateRemote t = .ok r) →
      2 ≤ ts.countP (fun t => t.write) →
      New ts = .error "you can't have more than one writeable target") ∧
    (∀ (ts : List TargetConf) (rs : List Remote) (w : Option Remote),
      New ts = .ok (rs, w) → rs.countP (fun r => r.write) ≤ 1) := by
  constructor
  · intro ts hok hcount
    unfold New
    have hne : ¬ts.isEmpty = true := by
      cases ts
      · simp at hcount
      · simp
    rw [if_neg hne]
    exact NewLoop_second_write_errors ts [] none hok (Or.inr ⟨rfl, hcount⟩)
  · intro ts rs w h
    unfold New at h
    by_cases hne : ts.isEmpty = true
    · rw [if_pos hne] at h
      cases h
    · rw [if_neg hne] at h
      have := NewLoop_ok_count ts [] none rs w h
      simpa using this

/-- Witness for C4: two writeable targets are rejected with the exact
message, and a mixed two-target configuration yields at most one
writeable remote. -/
theorem C4_witness :
    New [⟨"https://h/b", "", false, "", true⟩,
        ⟨"https://h/b2", "", false, "", true⟩] =
      .error "you can't have more than one writeable target" ∧
    ∀ rs w, New [⟨"https://h/b", "", false, "", false⟩,
        ⟨"https://h/b2", "", false, "", true⟩] = .ok (rs, w) →
      rs.countP (fun r => r.write) ≤ 1 := by
  constructor
  · refine C4_at_most_one_writeable_target.1 _ ?_ (by decide)
    intro t ht
    rcases List.mem_cons.mp ht with rfl | ht
    · exact ⟨_, rfl⟩
    · rcases List.mem_cons.mp ht with rfl | ht
      · exact ⟨_, rfl⟩
      · cases ht
  · intro rs w h
    exact C4_at_most_one_writeable_target.2 _ rs w h

theorem fileDetails_ok {s : FSState} {name : String} {b : Bool}
    {attr : Attr} {r : Remote} {st : Status}
    (h : fileDetails s name b = (some (attr, r), st)) :
    alookup s.files name = some attr ∧
      alookup s.fileToRemote name = some r := by
  unfold fileDetails at h
  rcases hf : alookup s.files name with _ | a
  · rw [hf] at h
    cases h
  · rw [hf] at h
    rcases hr : alookup s.fileToRemote name with _ | r₀
    · rw [hr] at h
      cases h
    · rw [hr] at h
      dsimp only at h
      split at h <;> · cases h; exact ⟨rfl, rfl⟩

/-- Claim C10: a handle returned by `Open` is writable (not wrapped by
`NewReadOnlyFile`) only when the owning remote is writeable and the
flags contain `O_WRONLY` or `O_RDWR`; in every other case in which a
handle is returned — including `O_APPEND` without `O_WRONLY` or
`O_RDWR` — the handle is wrapped read-only. -/
theorem C10_open_wraps_readonly_unless_writable :
    (∀ (s : FSState) (name : String) (flags : Nat) (o : OpenOracle)
      (s₁ : FSState) (hdl : Handle) (st : Status),
      Open s name flags o = (s₁, some hdl, st) →
      hdl.readOnly = false →
      (∃ r, alookup s.fileToRemote name = some r ∧ r.write = true) ∧
        (hasFlag flags O_WRONLY = true ∨ hasFlag flags O_RDWR = true)) ∧
    (∀ (s : FSState) (name : String) (flags : Nat) (o : OpenOracle)
      (s₁ : FSState) (hdl : Handle) (st : Status),
      Open s name flags o = (s₁, some hdl, st) →
      hasFlag flags O_WRONLY = false → hasFlag flags O_RDWR = false →
      hdl.readOnly = true) := by
  have key : ∀ (s : FSState) (name : String) (flags : Nat) (o : OpenOracle)
      (s₁ : FSState) (hdl : Handle) (st : Status),
      Open s name flags o = (s₁, some hdl, st) →
      hdl.readOnly = false →
      (∃ r, alookup s.fileToRemote name = some r ∧ r.write = true) ∧
        (hasFlag flags O_WRONLY = true ∨ hasFlag flags O_RDWR = true) := by
    intro s name flags o s₁ hdl st h hro
    unfold Open at h
    dsimp only at h
    rcases hfd : fileDetails s name (hasWriteFlag flags) with ⟨opt, st₀⟩
    rw [hfd] at h
    rcases opt with _ | ⟨attr, r⟩
    · cases st₀ <;> simp only at h <;> cases h
    · rcases st₀ with _ | _ | _ | _ | _
      case OK =>
        dsimp only at h
        rcases hoc : (if r.cacheData = true then openCached s r name flags attr o
            else (s, some ⟨false⟩, OK)) with ⟨s₂, file, st₂⟩
        rw [hoc] at h
        dsimp only at h
        by_cases hwrap : ¬r.write = true ∨
            (¬hasFlag flags O_WRONLY = true ∧ ¬hasFlag flags O_RDWR = true)
        · rw [if_pos hwrap] at h
          simp only [Prod.mk.injEq] at h
          obtain ⟨-, h2, -⟩ := h
          rcases file with _ | f
          · simp at h2
          · rcases hdl with ⟨ro⟩
            simp_all
        · rw [if_neg hwrap] at h
          push_neg at hwrap
          obtain ⟨hw, hflags⟩ := hwrap
          refine ⟨⟨r, (fileDetails_ok hfd).2, by simpa using hw⟩, ?_⟩
          by_cases hwo : hasFlag flags O_WRONLY = true
          · exact Or.inl hwo
          · exact Or.inr (by simpa using hflags (by simpa using hwo))
      all_goals (dsimp only at h; cases h)
  constructor
  · exact key
  · intro s name flags o s₁ hdl st h hwo hrw
    by_cases hro : hdl.readOnly = true
    · exact hro
    · have := key s name flags o s₁ hdl st h (by simpa using hro)
      rcases this.2 with hx | hx
      · rw [hwo] at hx
        cases hx
      · rw [hrw] at hx
        cases hx

/-- Witness for C10: opening the write-remote-owned cached file "f" with
`O_WRONLY` yields an unwrapped handle and the claimed conditions hold;
opening it with only `O_APPEND` yields a read-only-wrapped handle. -/
theorem C10_witness :
    ((∃ r, alookup exSf.fileToRemote "f" = some r ∧ r.write = true) ∧
      (hasFlag 1 O_WRONLY = true ∨ hasFlag 1 O_RDWR = true)) ∧
    (Handle.mk true).readOnly = true :=
  ⟨C10_open_wraps_readonly_unless_writable.1 exSf "f" 1
      { localSize := some 5 } (Open exSf "f" 1 { localSize := some 5 }).1
      ⟨false⟩ OK (by decide) rfl,
    C10_open_wraps_readonly_unless_writable.2 exSf "f" O_APPEND
      { localSize := some 5 }
      (Open exSf "f" O_APPEND { localSize := some 5 }).1 ⟨true⟩ OK
      (by decide) (by decide) (by decide)⟩

theorem swapRemove_perm {α : Type} (l : List α) (i : Nat) (x : α)
    (hi : i < l.length) (hx : l.getLast? = some x) :
    ((l.set i x).dropLast).Perm (l.eraseIdx i) := by
  induction l generalizing i with
  | nil => simp at hi
  | cons a rest ih =>
    rcases i with _ | j
    · rcases rest with _ | ⟨b, rest₂⟩
      · simp [List.set_cons_zero, List.eraseIdx_cons_zero]
      · have hx₂ : (b :: rest₂).getLast? = some x := by
          rw [← List.getLast?_cons_cons]
          exact hx
        rw [List.set_cons_zero, List.eraseIdx_cons_zero,
          List.dropLast_cons_of_ne_nil (by simp)]
        have hdec := List.dropLast_append_getLast? x (Option.mem_def.mpr hx₂)
        have hperm := (List.perm_append_singleton x ((b :: rest₂).dropLast)).symm
        rw [hdec] at hperm
        exact hperm
    · have hj : j < rest.length := by
        simpa using hi
      have hrne : rest ≠ [] := List.ne_nil_of_length_pos (by omega)
      rcases rest with _ | ⟨b, rest₂⟩
      · cases hrne rfl
      · have hx₂ : (b :: rest₂).getLast? = some x := by
          rw [← List.getLast?_cons_cons]
          exact hx
        rw [List.set_cons_succ, List.eraseIdx_cons_succ,
          List.dropLast_cons_of_ne_nil
            (List.ne_nil_of_length_pos (by rw [List.length_set]; simpa using hj))]
        exact List.Perm.cons a (ih j hj hx₂)

theorem findIdx?_eraseP_eraseIdx {α : Type} {p : α → Bool} :
    ∀ {l : List α} {i : Nat}, l.findIdx? p = some i →
      l.eraseP p = l.eraseIdx i ∧ i < l.length := by
  intro l
  induction l with
  | nil => intro i h; simp [List.findIdx?] at h
  | cons a rest ih =>
    intro i h
    rw [List.findIdx?_cons] at h
    by_cases hp : p a = true
    · rw [if_pos hp] at h
      cases h
      exact ⟨List.eraseP_cons_of_pos hp, by simp⟩
    · rw [if_neg hp] at h
      rw [List.findIdx?_succ] at h
      rcases hfi : List.findIdx? p rest with _ | j
      · rw [hfi] at h
        cases h
      · rw [hfi] at h
        simp only [Option.map_some'] at h
        cases h
        obtain ⟨h1, h2⟩ := ih hfi
        refine ⟨?_, by simpa using Nat.succ_lt_succ h2⟩
        rw [List.eraseP_cons_of_neg hp, h1, List.eraseIdx_cons_succ]

theorem rmEntry_fields (s : FSState) (name : String) :
    (rmEntryFromItsDir s name).files = s.files ∧
    (rmEntryFromItsDir s name).fileToRemote = s.fileToRemote ∧
    (rmEntryFromItsDir s name).createdFiles = s.createdFiles ∧
    (rmEntryFromItsDir s name).remotes = s.remotes ∧
    (rmEntryFromItsDir s name).writeRemote = s.writeRemote ∧
    (rmEntryFromItsDir s name).dirs = s.dirs ∧
    (rmEntryFromItsDir s name).tracker = s.tracker := by
  unfold rmEntryFromItsDir
  dsimp only
  rcases hdc : alookup s.dirContents (parentOf name) with _ | dentries
  · exact ⟨rfl, rfl, rfl, rfl, rfl, rfl, rfl⟩
  · dsimp only
    split <;> exact ⟨rfl, rfl, rfl, rfl, rfl, rfl, rfl⟩

theorem rmEntry_of_no_parent (s : FSState) (name : String)
    (h : alookup s.dirContents (parentOf name) = none) :
    rmEntryFromItsDir s name = s := by
  unfold rmEntryFromItsDir
  dsimp only
  rw [h]

theorem rmEntry_dirContents_perm (s : FSState) (name : String)
    {l : List DirEntry}
    (hl : alookup s.dirContents (parentOf name) = some l) :
    ∃ l₂, alookup (rmEntryFromItsDir s name).dirContents (parentOf name) =
        some l₂ ∧
      l₂.Perm (l.eraseP (fun e => e.name = goBase name)) := by
  unfold rmEntryFromItsDir
  dsimp only
  rw [hl]
  dsimp only
  rcases hfi : List.findIdx? (fun e => decide (e.name = goBase name)) l
    with _ | i <;> rw [hfi]
  · refine ⟨l, hl, ?_⟩
    rw [List.eraseP_of_forall_not]
    intro e he
    have := List.findIdx?_eq_none_iff.mp hfi e he
    simpa using this
  · obtain ⟨herase, hlt⟩ := findIdx?_eraseP_eraseIdx hfi
    have hne : l ≠ [] := List.ne_nil_of_length_pos (by omega)
    have hlast := List.getLast?_eq_getLast l hne
    refine ⟨_, alookup_aupsert_self _ _ _, ?_⟩
    rw [herase, hlast]
    exact swapRemove_perm l i _ hlt hlast

/-- Claim C6 amended: `Truncate` is a no-op success only for offsets
strictly greater than the file size (the Go comparison is
`offset > attr.Size`); at `offset = attr.size` the truncation path runs
and mutates the state. Moreover the no-op applies only when the file is
owned by the writeable remote: for a file owned by a read-only remote,
`Truncate` returns EPERM whatever the offset. -/
theorem C6_truncate_noop_strictly_beyond_size :
    (∀ (s : FSState) (name : String) (offset : Nat) (o : TruncOracle)
      (attr : Attr) (r : Remote),
      fileDetails s name true = (some (attr, r), OK) →
      offset > attr.size →
      Truncate s name offset o = (s, OK)) ∧
    (∀ (s : FSState) (name : String) (offset : Nat) (o : TruncOracle),
      (fileDetails s name true).2 = EPERM →
      Truncate s name offset o = (s, EPERM)) := by
  constructor
  · intro s name offset o attr r h hoff
    unfold Truncate
    rw [h]
    dsimp only
    rw [if_pos hoff]
  · intro s name offset o h2
    unfold Truncate
    rcases hfd : fileDetails s name true with ⟨opt, st⟩
    rw [hfd] at h2
    dsimp only at h2
    subst h2
    rcases opt with _ | ⟨attr, r⟩
    · rfl
    · rfl

/-- Witness for C6 amended: truncating the write-owned file "f" (size 5)
at offset 6 is a no-op success, and truncating the read-only-owned file
"p" returns EPERM. -/
theorem C6_witness :
    Truncate exSf "f" 6 {} = (exSf, OK) ∧
    Truncate exSf "p" 3 {} = (exSf, EPERM) :=
  ⟨C6_truncate_noop_strictly_beyond_size.1 exSf "f" 6 {} exAttr5 exR2
      (by decide) (by decide),
    C6_truncate_noop_strictly_beyond_size.2 exSf "p" 3 {} (by decide)⟩

/-- Claim C3 amended: `Unlink` scrubs the namespace — removing the path
from `files`, `fileToRemote`, `createdFiles` and the parent's directory
entries — only when the remote `deleteFile` call succeeds; when the
remote delete fails, `Unlink` returns that failure and leaves `files`,
`fileToRemote`, `createdFiles` and the directory entries exactly as they
were (only the local cache copy and its tracker entry are scrubbed
first when the remote is cached). -/
theorem C3_unlink_scrubs_only_when_delete_succeeds :
    (∀ (s : FSState) (name : String) (attr : Attr) (r : Remote),
      fileDetails s name true = (some (attr, r), OK) →
      ((alookup s.dirContents (parentOf name)).getD []).countP
          (fun e => e.name = goBase name) ≤ 1 →
      (Unlink s name OK).2 = OK ∧
      alookup (Unlink s name OK).1.files name = none ∧
      alookup (Unlink s name OK).1.fileToRemote name = none ∧
      name ∉ (Unlink s name OK).1.createdFiles ∧
      ∀ e ∈ (alookup (Unlink s name OK).1.dirContents
          (parentOf name)).getD [], e.name ≠ goBase name) ∧
    (∀ (s : FSState) (name : String) (ds : Status) (attr : Attr)
      (r : Remote),
      fileDetails s name true = (some (attr, r), OK) → ds ≠ OK →
      (Unlink s name ds).2 = ds ∧
      (Unlink s name ds).1.files = s.files ∧
      (Unlink s name ds).1.fileToRemote = s.fileToRemote ∧
      (Unlink s name ds).1.createdFiles = s.createdFiles ∧
      (Unlink s name ds).1.dirContents = s.dirContents) := by
  constructor
  · intro s name attr r h hcount
    unfold Unlink
    rw [h]
    dsimp only
    rw [if_neg (by simp)]
    set s₂ : FSState :=
      { (if r.cacheData = true then
            cacheDelete s (r.getLocalPath (r.getRemotePath name))
          else s) with
        files := aerase (if r.cacheData = true then
            cacheDelete s (r.getLocalPath (r.getRemotePath name))
          else s).files name
        fileToRemote := aerase (if r.cacheData = true then
            cacheDelete s (r.getLocalPath (r.getRemotePath name))
          else s).fileToRemote name
        createdFiles := setErase (if r.cacheData = true then
            cacheDelete s (r.getLocalPath (r.getRemotePath name))
          else s).createdFiles name } with hs₂
    have hcd : ∀ b, (if b = true then
        cacheDelete s (r.getLocalPath (r.getRemotePath name))
        else s).files = s.files ∧
        (if b = true then
          cacheDelete s (r.getLocalPath (r.getRemotePath name))
          else s).fileToRemote = s.fileToRemote ∧
        (if b = true then
          cacheDelete s (r.getLocalPath (r.getRemotePath name))
          else s).createdFiles = s.createdFiles ∧
        (if b = true then
          cacheDelete s (r.getLocalPath (r.getRemotePath name))
          else s).dirContents = s.dirContents := by
      intro b
      cases b <;> exact ⟨rfl, rfl, rfl, rfl⟩
    refine ⟨rfl, ?_, ?_, ?_, ?_⟩
    · rw [(rmEntry_fields s₂ name).1, hs₂]
      dsimp only
      rw [(hcd r.cacheData).1]
      exact alookup_aerase_self _ _
    · rw [(rmEntry_fields s₂ name).2.1, hs₂]
      dsimp only
      rw [(hcd r.cacheData).2.1]
      exact alookup_aerase_self _ _
    · rw [(rmEntry_fields s₂ name).2.2.1, hs₂]
      dsimp only
      rw [(hcd r.cacheData).2.2.1]
      intro hmem
      exact ((mem_setErase hmem).2) rfl
    · intro e he
      have hdc : s₂.dirContents = s.dirContents := by
        rw [hs₂]
        exact (hcd r.cacheData).2.2.2
      rcases hpl : alookup s.dirContents (parentOf name) with _ | l
      · have hnone : alookup s₂.dirContents (parentOf name) = none := by
          rw [hdc]
          exact hpl
        rw [rmEntry_of_no_parent s₂ name hnone, hnone] at he
        simp at he
      · have hperm := rmEntry_dirContents_perm s₂ name (l := l)
          (by rw [hdc]; exact hpl)
        obtain ⟨l₂, hl₂, hp⟩ := hperm
        rw [hl₂] at he
        simp only [Option.getD_some] at he
        have hmem := (hp.mem_iff).mp he
        -- the erased list has no entry with the base name, since the
        -- original held at most one
        rw [hpl] at hcount
        simp only [Option.getD_some] at hcount
        by_cases hex : ∃ e₀ ∈ l, e₀.name = goBase name
        · obtain ⟨e₀, he₀, hpe₀⟩ := hex
          obtain ⟨a, l₁, l₃, hnl₁, hpa, hdecomp, herase⟩ :=
            List.exists_of_eraseP (p := fun e => decide (e.name = goBase name))
              he₀ (by simpa using hpe₀)
          rw [herase] at hmem
          rw [hdecomp] at hcount
          simp only [List.countP_append, List.countP_cons] at hcount
          rw [if_pos (by simpa using hpa)] at hcount
          have hz₁ : l₁.countP (fun e => decide (e.name = goBase name)) = 0 := by
            omega
          have hz₃ : l₃.countP (fun e => decide (e.name = goBase name)) = 0 := by
            omega
          intro hename
          rcases List.mem_append.mp hmem with hm | hm
          · exact absurd (by simpa using hename)
              (List.countP_eq_zero.mp hz₁ e hm)
          · exact absurd (by simpa using hename)
              (List.countP_eq_zero.mp hz₃ e hm)
        · push_neg at hex
          rw [List.eraseP_of_forall_not (by
            intro e₀ he₀
            simpa using hex e₀ he₀)] at hmem
          exact hex e hmem
  · intro s name ds attr r h hds
    unfold Unlink
    rw [h]
    dsimp only
    rw [if_pos hds]
    by_cases hb : r.cacheData = true
    · rw [if_pos hb]
      exact ⟨rfl, rfl, rfl, rfl, rfl⟩
    · rw [if_neg hb]
      exact ⟨rfl, rfl, rfl, rfl, rfl⟩

/-- Witness for C3 amended: unlinking "f" with a successful remote delete
scrubs it from the namespace, and unlinking with a failed remote delete
returns EIO and leaves the maps unchanged. -/
theorem C3_witness :
    ((Unlink exSf "f" OK).2 = OK ∧
      alookup (Unlink exSf "f" OK).1.files "f" = none ∧
      alookup (Unlink exSf "f" OK).1.fileToRemote "f" = none ∧
      "f" ∉ (Unlink exSf "f" OK).1.createdFiles ∧
      ∀ e ∈ (alookup (Unlink exSf "f" OK).1.dirContents
          (parentOf "f")).getD [], e.name ≠ goBase "f") ∧
    ((Unlink exSf "f" Status.EIO).2 = Status.EIO ∧
      (Unlink exSf "f" Status.EIO).1.files = exSf.files ∧
      (Unlink exSf "f" Status.EIO).1.fileToRemote = exSf.fileToRemote ∧
      (Unlink exSf "f" Status.EIO).1.createdFiles = exSf.createdFiles ∧
      (Unlink exSf "f" Status.EIO).1.dirContents = exSf.dirContents) :=
  ⟨C3_unlink_scrubs_only_when_delete_succeeds.1 exSf "f" exAttr5 exR2
      (by decide) (by decide),
    C3_unlink_scrubs_only_when_delete_succeeds.2 exSf "f" Status.EIO exAttr5
      exR2 (by decide) (by decide)⟩

theorem openDirStep_fields (r : Remote) (name rp : String) (s : FSState)
    (b : Bool) (obj : RemoteAttr) :
    ((openDirStep r name rp (s, b) obj).1).remotes = s.remotes ∧
    ((openDirStep r name rp (s, b) obj).1).writeRemote = s.writeRemote ∧
    ((openDirStep r name rp (s, b) obj).1).createdFiles = s.createdFiles ∧
    ((openDirStep r name rp (s, b) obj).1).createdDirs = s.createdDirs := by
  unfold openDirStep
  dsimp only
  split_ifs <;> exact ⟨rfl, rfl, rfl, rfl⟩

theorem openDirStep_dirContents_name (r : Remote) (name rp : String)
    (s : FSState) (b : Bool) (obj : RemoteAttr) :
    alookup ((openDirStep r name rp (s, b) obj).1).dirContents name =
      match entryAction name rp obj with
      | none => alookup s.dirContents name
      | some (d, _, _) =>
        some (((alookup s.dirContents name).getD []) ++ [d]) := by
  unfold openDirStep entryAction
  dsimp only
  split_ifs <;> simp [alookup_aupsert_self]

theorem openDirStep_dirContents_other (r : Remote) (name rp : String)
    (s : FSState) (b : Bool) (obj : RemoteAttr) (q : String)
    (hq : q ≠ name) :
    alookup ((openDirStep r name rp (s, b) obj).1).dirContents q =
      alookup s.dirContents q := by
  unfold openDirStep
  dsimp only
  split_ifs <;> simp [alookup_aupsert_ne _ _ _ _ hq]

theorem openDirStep_isDir (r : Remote) (name rp : String) (s : FSState)
    (b : Bool) (obj : RemoteAttr) :
    (openDirStep r name rp (s, b) obj).2 =
      (b || decide (obj.name ≠ name)) := by
  unfold openDirStep
  dsimp only
  split_ifs with h1 <;> simp [h1]

theorem openDirStep_fileToRemote_other (r : Remote) (name rp : String)
    (s : FSState) (b : Bool) (obj : RemoteAttr) (p : String)
    (hp : ∀ d tp, entryAction name rp obj = some (d, tp, true) → p ≠ tp) :
    alookup ((openDirStep r name rp (s, b) obj).1).fileToRemote p =
      alookup s.fileToRemote p := by
  unfold openDirStep at *
  unfold entryAction at hp
  dsimp only at *
  split_ifs with h1 h2 h3
  · rfl
  · rfl
  · rfl
  · have := hp ⟨obj.name.drop rp.length, S_IFREG⟩
      (joinPath name (obj.name.drop rp.length))
    rw [if_neg h1, if_neg h2, if_neg h3] at this
    exact alookup_aupsert_ne _ _ _ _ (this rfl)

theorem openDirStep_files_isSome (r : Remote) (name rp : String)
    (s : FSState) (b : Bool) (obj : RemoteAttr) (p : String)
    (h : (alookup s.files p).isSome = true) :
    (alookup ((openDirStep r name rp (s, b) obj).1).files p).isSome =
      true := by
  unfold openDirStep
  dsimp only
  split_ifs
  · exact h
  · exact h
  · exact h
  · exact alookup_isSome_aupsert _ _ _ _ h

theorem openDirStep_inv1 (r : Remote) (name rp : String) (s : FSState)
    (b : Bool) (obj : RemoteAttr) (hr : r ∈ s.remotes) (h1 : inv1 s) :
    inv1 ((openDirStep r name rp (s, b) obj).1) := by
  unfold openDirStep
  dsimp only
  split_ifs
  · exact h1
  · exact h1
  · exact h1
  · intro pa hpa
    dsimp only at hpa
    rcases mem_aupsert hpa with hpe | hpm
    · refine ⟨r, hr, ?_⟩
      rw [hpe]
      exact alookup_aupsert_self _ _ _
    · by_cases hp : pa.1 = joinPath name (obj.name.drop rp.length)
      · refine ⟨r, hr, ?_⟩
        rw [hp]
        exact alookup_aupsert_self _ _ _
      · obtain ⟨r₀, hr₀, hl₀⟩ := h1 pa hpm
        refine ⟨r₀, hr₀, ?_⟩
        rw [alookup_aupsert_ne _ _ _ _ hp]
        exact hl₀

theorem openDirLoop_fields (r : Remote) (name rp : String) :
    ∀ (objects : List RemoteAttr) (s : FSState) (b : Bool),
      ((objects.foldl (openDirStep r name rp) (s, b)).1).remotes =
        s.remotes ∧
      ((objects.foldl (openDirStep r name rp) (s, b)).1).writeRemote =
        s.writeRemote ∧
      ((objects.foldl (openDirStep r name rp) (s, b)).1).createdFiles =
        s.createdFiles ∧
      ((objects.foldl (openDirStep r name rp) (s, b)).1).createdDirs =
        s.createdDirs := by
  intro objects
  induction objects with
  | nil => exact fun s b => ⟨rfl, rfl, rfl, rfl⟩
  | cons o os ih =>
    intro s b
    rw [List.foldl_cons]
    rcases hst : openDirStep r name rp (s, b) o with ⟨t, b₂⟩
    have hf := openDirStep_fields r name rp s b o
    rw [hst] at hf
    obtain ⟨h₁, h₂, h₃, h₄⟩ := hf
    obtain ⟨g₁, g₂, g₃, g₄⟩ := ih t b₂
    exact ⟨g₁.trans h₁, g₂.trans h₂, g₃.trans h₃, g₄.trans h₄⟩

theorem openDirLoop_dirContents_name (r : Remote) (name rp : String) :
    ∀ (objects : List RemoteAttr) (s : FSState) (b : Bool),
      alookup ((objects.foldl (openDirStep r name rp) (s, b)).1).dirContents
          name =
        (if (alookup s.dirContents name).isSome = true ∨
            entriesFor name rp objects ≠ [] then
          some (((alookup s.dirContents name).getD []) ++
            entriesFor name rp objects)
        else none) := by
  intro objects
  induction objects with
  | nil =>
    intro s b
    rcases hdc : alookup s.dirContents name with _ | l <;>
      simp [entriesFor, hdc]
  | cons o os ih =>
    intro s b
    rw [List.foldl_cons]
    rcases hst : openDirStep r name rp (s, b) o with ⟨t, b₂⟩
    have hdc := openDirStep_dirContents_name r name rp s b o
    rw [hst] at hdc
    dsimp only at hdc
    have hes : entriesFor name rp (o :: os) =
        match entryAction name rp o with
        | none => entriesFor name rp os
        | some dti => dti.1 :: entriesFor name rp os := by
      unfold entriesFor
      rw [List.filterMap_cons]
      rcases hea₀ : entryAction name rp o with _ | dti <;> simp [hea₀]
    rcases hea : entryAction name rp o with _ | ⟨d, tp, isf⟩
    · rw [hea] at hdc hes
      dsimp only at hdc hes
      rw [ih t b₂, hdc, hes]
    · rw [hea] at hdc hes
      dsimp only at hdc hes
      rw [ih t b₂, hdc, hes]
      have hcond : (some (((alookup s.dirContents name).getD []) ++
          [d])).isSome = true ∨ entriesFor name rp os ≠ [] := by
        simp
      rw [if_pos hcond, if_pos
        (by simp : (alookup s.dirContents name).isSome = true ∨
          d :: entriesFor name rp os ≠ [])]
      simp

theorem openDirLoop_dirContents_other (r : Remote) (name rp : String)
    (q : String) (hq : q ≠ name) :
    ∀ (objects : List RemoteAttr) (s : FSState) (b : Bool),
      alookup ((objects.foldl (openDirStep r name rp) (s, b)).1).dirContents
        q = alookup s.dirContents q := by
  intro objects
  induction objects with
  | nil => exact fun s b => rfl
  | cons o os ih =>
    intro s b
    rw [List.foldl_cons]
    rcases hst : openDirStep r name rp (s, b) o with ⟨t, b₂⟩
    have h := openDirStep_dirContents_other r name rp s b o q hq
    rw [hst] at h
    rw [ih t b₂, h]

theorem openDirLoop_isDir (r : Remote) (name rp : String) :
    ∀ (objects : List RemoteAttr) (s : FSState) (b : Bool),
      (objects.foldl (openDirStep r name rp) (s, b)).2 =
        (b || objects.any (fun o => decide (o.name ≠ name))) := by
  intro objects
  induction objects with
  | nil => intro s b; simp
  | cons o os ih =>
    intro s b
    rw [List.foldl_cons]
    rcases hst : openDirStep r name rp (s, b) o with ⟨t, b₂⟩
    have h := openDirStep_isDir r name rp s b o
    rw [hst] at h
    dsimp only at h
    rw [ih t b₂, h]
    simp [Bool.or_assoc]

theorem openDirLoop_fileToRemote_other (r : Remote) (name rp : String)
    (p : String) :
    ∀ (objects : List RemoteAttr) (s : FSState) (b : Bool),
      p ∉ regFilePaths name rp objects →
      alookup ((objects.foldl (openDirStep r name rp) (s, b)).1).fileToRemote
        p = alookup s.fileToRemote p := by
  intro objects
  induction objects with
  | nil => exact fun s b _ => rfl
  | cons o os ih =>
    intro s b hp
    have hreg : regFilePaths name rp (o :: os) =
        match entryAction name rp o with
        | some (_, tp, true) => tp :: regFilePaths name rp os
        | _ => regFilePaths name rp os := by
      unfold regFilePaths
      rw [List.filterMap_cons]
      rcases hea₀ : entryAction name rp o with _ | ⟨d, tp, isf⟩
      · simp [hea₀]
      · rcases isf with _ | _ <;> simp [hea₀]
    rw [List.foldl_cons]
    rcases hst : openDirStep r name rp (s, b) o with ⟨t, b₂⟩
    have hstep := openDirStep_fileToRemote_other r name rp s b o p
    rcases hea : entryAction name rp o with _ | ⟨d, tp, isf⟩
    · rw [hea] at hreg
      dsimp only at hreg
      rw [hreg] at hp
      have h := hstep (by intro d₂ tp₂ he₂; rw [hea] at he₂; cases he₂)
      rw [hst] at h
      rw [ih t b₂ hp, h]
    · rcases isf with _ | _
      · rw [hea] at hreg
        dsimp only at hreg
        rw [hreg] at hp
        have h := hstep (by
          intro d₂ tp₂ he₂
          rw [hea] at he₂
          cases he₂)
        rw [hst] at h
        rw [ih t b₂ hp, h]
      · rw [hea] at hreg
        dsimp only at hreg
        rw [hreg] at hp
        have hpne : p ≠ tp := by
          intro he
          exact hp (by rw [he]; exact List.mem_cons_self _ _)
        have hpos : p ∉ regFilePaths name rp os := fun hm =>
          hp (List.mem_cons_of_mem _ hm)
        have h := hstep (by
          intro d₂ tp₂ he₂
          rw [hea] at he₂
          cases he₂
          exact hpne)
        rw [hst] at h
        rw [ih t b₂ hpos, h]

theorem openDirLoop_files_isSome (r : Remote) (name rp : String)
    (p : String) :
    ∀ (objects : List RemoteAttr) (s : FSState) (b : Bool),
      (alookup s.files p).isSome = true →
      (alookup ((objects.foldl (openDirStep r name rp)
        (s, b)).1).files p).isSome = true := by
  intro objects
  induction objects with
  | nil => exact fun s b h => h
  | cons o os ih =>
    intro s b h
    rw [List.foldl_cons]
    rcases hst : openDirStep r name rp (s, b) o with ⟨t, b₂⟩
    have hstep := openDirStep_files_isSome r name rp s b o p h
    rw [hst] at hstep
    exact ih t b₂ hstep

theorem openDirLoop_inv1 (r : Remote) (name rp : String) :
    ∀ (objects : List RemoteAttr) (s : FSState) (b : Bool),
      r ∈ s.remotes → inv1 s →
      inv1 ((objects.foldl (openDirStep r name rp) (s, b)).1) := by
  intro objects
  induction objects with
  | nil => exact fun s b _ h => h
  | cons o os ih =>
    intro s b hr h1
    rw [List.foldl_cons]
    rcases hst : openDirStep r name rp (s, b) o with ⟨t, b₂⟩
    have hstep := openDirStep_inv1 r name rp s b o hr h1
    have hrem := (openDirStep_fields r name rp s b o).1
    rw [hst] at hstep hrem
    exact ih t b₂ (by rw [hrem]; exact hr) hstep

theorem openDir_fields (s : FSState) (r : Remote) (name : String)
    (l : Listing) :
    (openDir s r name l).1.remotes = s.remotes ∧
    (openDir s r name l).1.writeRemote = s.writeRemote ∧
    (openDir s r name l).1.createdFiles = s.createdFiles ∧
    (openDir s r name l).1.createdDirs = s.createdDirs := by
  unfold openDir
  dsimp only
  have hf := openDirLoop_fields r name (remotePrefix r name) l.objects s false
  split_ifs <;>
    first
      | exact ⟨rfl, rfl, rfl, rfl⟩
      | exact ⟨hf.1, hf.2.1, hf.2.2.1, hf.2.2.2⟩

theorem openDir_dirContents_other (s : FSState) (r : Remote) (name : String)
    (l : Listing) (q : String) (hq : q ≠ name) :
    alookup (openDir s r name l).1.dirContents q =
      alookup s.dirContents q := by
  unfold openDir
  dsimp only
  have hl := openDirLoop_dirContents_other r name (remotePrefix r name) q hq
    l.objects s false
  split_ifs with h1 h2 h3 h4 h5
  · subst h2
    exact alookup_aupsert_ne _ _ _ _ hq
  · rfl
  · rfl
  · exact hl
  · dsimp only
    rw [alookup_aupsert_ne _ _ _ _ hq]
    exact hl
  · exact hl

theorem openDir_files_isSome (s : FSState) (r : Remote) (name : String)
    (l : Listing) (p : String) (h : (alookup s.files p).isSome = true) :
    (alookup (openDir s r name l).1.files p).isSome = true := by
  unfold openDir
  dsimp only
  have hl := openDirLoop_files_isSome r name (remotePrefix r name) p
    l.objects s false h
  split_ifs <;> first | exact h | exact hl

theorem openDir_fileToRemote_other (s : FSState) (r : Remote)
    (name : String) (l : Listing) (p : String)
    (hp : p ∉ regFilePaths name (remotePrefix r name) l.objects) :
    alookup (openDir s r name l).1.fileToRemote p =
      alookup s.fileToRemote p := by
  unfold openDir
  dsimp only
  have hl := openDirLoop_fileToRemote_other r name (remotePrefix r name) p
    l.objects s false hp
  split_ifs <;> first | rfl | exact hl

theorem openDir_inv1 (s : FSState) (r : Remote) (name : String)
    (l : Listing) (hr : r ∈ s.remotes) (h1 : inv1 s) :
    inv1 (openDir s r name l).1 := by
  unfold openDir
  dsimp only
  have hl := openDirLoop_inv1 r name (remotePrefix r name) l.objects s false
    hr h1
  split_ifs <;> first | exact h1 | exact hl

theorem openDir_inv2 (s : FSState) (r : Remote) (name : String)
    (l : Listing)
    (hfr : ∀ p ∈ regFilePaths name (remotePrefix r name) l.objects,
      p ∉ s.createdFiles)
    (h2 : inv2 s) : inv2 (openDir s r name l).1 := by
  intro p hp
  have hfields := openDir_fields s r name l
  rw [hfields.2.2.1] at hp
  obtain ⟨hsome, hw⟩ := h2 p hp
  refine ⟨openDir_files_isSome s r name l p hsome, ?_⟩
  have hnotreg : p ∉ regFilePaths name (remotePrefix r name) l.objects :=
    fun hm => hfr p hm hp
  rw [openDir_fileToRemote_other s r name l p hnotreg, hfields.2.1]
  exact hw

theorem openDir_empty_nonroot (s : FSState) (r : Remote) (name : String)
    (hname : name ≠ "") :
    openDir s r name ⟨OK, []⟩ = (s, ENOENT) := by
  unfold openDir
  rw [if_pos (Or.inr rfl), if_neg hname, if_pos rfl]

theorem openDirAll_empty_nonroot (name : String) (hname : name ≠ "")
    (listing : ListingOracle) :
    ∀ (rs : List Remote) (s : FSState),
      (∀ r ∈ rs, listing r = ⟨OK, []⟩) →
      openDirAll s rs name listing = s := by
  intro rs
  induction rs with
  | nil => exact fun s _ => rfl
  | cons r rest ih =>
    intro s hall
    unfold openDirAll
    rw [List.foldl_cons]
    have h1 : (openDir s r name (listing r)).1 = s := by
      rw [hall r (List.mem_cons_self _ _),
        openDir_empty_nonroot s r name hname]
    rw [h1]
    exact ih s (fun r₂ hr₂ => hall r₂ (List.mem_cons_of_mem _ hr₂))

theorem openDirAll_fields (name : String) (listing : ListingOracle) :
    ∀ (rs : List Remote) (s : FSState),
      (openDirAll s rs name listing).remotes = s.remotes ∧
      (openDirAll s rs name listing).writeRemote = s.writeRemote ∧
      (openDirAll s rs name listing).createdFiles = s.createdFiles ∧
      (openDirAll s rs name listing).createdDirs = s.createdDirs := by
  intro rs
  induction rs with
  | nil => exact fun s => ⟨rfl, rfl, rfl, rfl⟩
  | cons r rest ih =>
    intro s
    unfold openDirAll
    rw [List.foldl_cons]
    have hf := openDir_fields s r name (listing r)
    have hi := ih (openDir s r name (listing r)).1
    unfold openDirAll at hi
    exact ⟨hi.1.trans hf.1, hi.2.1.trans hf.2.1, hi.2.2.1.trans hf.2.2.1,
      hi.2.2.2.trans hf.2.2.2⟩

theorem openDirAll_inv1 (name : String) (listing : ListingOracle) :
    ∀ (rs : List Remote) (s : FSState),
      (∀ r ∈ rs, r ∈ s.remotes) → inv1 s →
      inv1 (openDirAll s rs name listing) := by
  intro rs
  induction rs with
  | nil => exact fun s _ h => h
  | cons r rest ih =>
    intro s hall h1
    unfold openDirAll
    rw [List.foldl_cons]
    have hstep := openDir_inv1 s r name (listing r)
      (hall r (List.mem_cons_self _ _)) h1
    have hrem := (openDir_fields s r name (listing r)).1
    have := ih (openDir s r name (listing r)).1
      (fun r₂ hr₂ => by
        rw [hrem]
        exact hall r₂ (List.mem_cons_of_mem _ hr₂)) hstep
    exact this

theorem openDirAll_inv2 (name : String) (listing : ListingOracle) :
    ∀ (rs : List Remote) (s : FSState),
      (∀ r : Remote,
        ∀ p ∈ regFilePaths name (remotePrefix r name) (listing r).objects,
          p ∉ s.createdFiles) →
      inv2 s → inv2 (openDirAll s rs name listing) := by
  intro rs
  induction rs with
  | nil => exact fun s _ h => h
  | cons r rest ih =>
    intro s hfr h2
    unfold openDirAll
    rw [List.foldl_cons]
    have hstep := openDir_inv2 s r name (listing r) (hfr r) h2
    have hcreated := (openDir_fields s r name (listing r)).2.2.1
    exact ih (openDir s r name (listing r)).1
      (fun r₂ p hp => by
        rw [hcreated]
        exact hfr r₂ p hp) hstep

theorem openDirAll_files_isSome (name : String) (listing : ListingOracle) :
    ∀ (rs : List Remote) (s : FSState) (p : String),
      (alookup s.files p).isSome = true →
      (alookup (openDirAll s rs name listing).files p).isSome = true := by
  intro rs
  induction rs with
  | nil => exact fun s p h => h
  | cons r rest ih =>
    intro s p h
    unfold openDirAll
    rw [List.foldl_cons]
    exact ih (openDir s r name (listing r)).1 p
      (openDir_files_isSome s r name (listing r) p h)

theorem openDir_appends (s : FSState) (r : Remote) (name : String)
    (l : Listing) (hst : l.status = OK) (hne : l.objects ≠ [])
    (hdir : ∃ obj ∈ l.objects, obj.name ≠ name) :
    (openDir s r name l).2 = OK ∧
    alookup (openDir s r name l).1.dirContents name =
      some (((alookup s.dirContents name).getD []) ++
        entriesFor name (remotePrefix r name) l.objects) := by
  unfold openDir
  dsimp only
  have hcond : ¬(l.status ≠ OK ∨ l.objects = []) := by
    simp [hst, hne]
  rw [if_neg hcond]
  have hisDir : (l.objects.foldl (openDirStep r name (remotePrefix r name))
      (s, false)).2 = true := by
    rw [openDirLoop_isDir]
    obtain ⟨obj, hm, hne₂⟩ := hdir
    simp only [Bool.false_or, List.any_eq_true]
    exact ⟨obj, hm, by simpa using hne₂⟩
  rw [if_pos hisDir]
  have hfold := openDirLoop_dirContents_name r name (remotePrefix r name)
    l.objects s false
  by_cases hs : (alookup (l.objects.foldl
      (openDirStep r name (remotePrefix r name))
      (s, false)).1.dirContents name).isSome = true
  · rw [if_pos hs]
    refine ⟨rfl, ?_⟩
    by_cases hc : (alookup s.dirContents name).isSome = true ∨
        entriesFor name (remotePrefix r name) l.objects ≠ []
    · rw [hfold] at hs ⊢
      rw [if_pos hc]
    · rw [hfold, if_neg hc] at hs
      simp at hs
  · rw [if_neg hs]
    refine ⟨rfl, ?_⟩
    have hc : ¬((alookup s.dirContents name).isSome = true ∨
        entriesFor name (remotePrefix r name) l.objects ≠ []) := by
      intro hc
      rw [hfold, if_pos hc] at hs
      simp at hs
    push_neg at hc
    obtain ⟨hc₁, hc₂⟩ := hc
    dsimp only
    rw [alookup_aupsert_self]
    rcases hold : alookup s.dirContents name with _ | old
    · rw [hc₂]
      simp
    · rw [hold] at hc₁
      simp at hc₁

theorem openDirAll_appends (name : String) (listing : ListingOracle) :
    ∀ (rs : List Remote) (s : FSState), rs ≠ [] →
      (∀ r ∈ rs, (listing r).status = OK ∧ (listing r).objects ≠ [] ∧
        ∃ obj ∈ (listing r).objects, obj.name ≠ name) →
      alookup (openDirAll s rs name listing).dirContents name =
        some (((alookup s.dirContents name).getD []) ++
          rs.flatMap (fun r =>
            entriesFor name (remotePrefix r name) (listing r).objects)) := by
  intro rs
  induction rs with
  | nil => exact fun s h _ => absurd rfl h
  | cons r rest ih =>
    intro s _ hall
    obtain ⟨h₁, h₂, h₃⟩ := hall r (List.mem_cons_self _ _)
    have hopen := (openDir_appends s r name (listing r) h₁ h₂ h₃).2
    unfold openDirAll
    rw [List.foldl_cons]
    rcases hrest : rest with _ | ⟨r₂, rest₂⟩
    · simp only [List.foldl_nil, List.flatMap_cons, List.flatMap_nil]
      rw [hopen]
      simp
    · rw [← hrest]
      have hne₂ : rest ≠ [] := by
        rw [hrest]
        simp
      have := ih (openDir s r name (listing r)).1 hne₂
        (fun r₂ hr₂ => hall r₂ (List.mem_cons_of_mem _ hr₂))
      unfold openDirAll at this
      rw [this, hopen]
      simp [List.flatMap_cons, List.append_assoc]

/-- Claim C5: an empty (or not-found, which `findObjects` reports as
OK-and-empty) listing at the root still registers the root as a
directory with empty contents and returns OK; at any non-root name the
same listing produces ENOENT and leaves the state unchanged; and
`OpenDir` on a non-root directory returns ENOENT when no contributing
remote produced entries for it. -/
theorem C5_empty_listing_root_ok_nonroot_enoent :
    (∀ (s : FSState) (r : Remote),
      (openDir s r "" ⟨OK, []⟩).2 = OK ∧
      alookup (openDir s r "" ⟨OK, []⟩).1.dirContents "" = some [] ∧
      alookup (openDir s r "" ⟨OK, []⟩).1.dirs "" =
        some (((alookup s.dirs "").getD []) ++ [r])) ∧
    (∀ (s : FSState) (r : Remote) (name : String), name ≠ "" →
      openDir s r name ⟨OK, []⟩ = (s, ENOENT)) ∧
    (∀ (s : FSState) (name : String) (listing : ListingOracle)
      (rs : List Remote), name ≠ "" →
      alookup s.dirs name = some rs →
      alookup s.dirContents name = none →
      (∀ r ∈ rs, listing r = ⟨OK, []⟩) →
      OpenDir s name listing = (s, none, ENOENT)) := by
  refine ⟨?_, ?_, ?_⟩
  · intro s r
    unfold openDir
    rw [if_pos (Or.inr rfl), if_pos rfl]
    exact ⟨rfl, alookup_aupsert_self _ _ _, alookup_aupsert_self _ _ _⟩
  · intro s r name hname
    exact openDir_empty_nonroot s r name hname
  · intro s name listing rs hname hdirs hcont hall
    unfold OpenDir
    rw [hdirs]
    dsimp only
    rw [hcont]
    dsimp only
    rw [openDirAll_empty_nonroot name hname listing rs s hall, hcont]

/-- Witness for C5: an empty-OK listing at the root of the example state
registers the root; at the non-root name "sub" it returns ENOENT; and
`OpenDir` of a never-listed non-root directory over one remote with an
empty listing returns ENOENT. -/
theorem C5_witness :
    ((openDir exSu exR2 "" ⟨OK, []⟩).2 = OK ∧
      alookup (openDir exSu exR2 "" ⟨OK, []⟩).1.dirContents "" = some [] ∧
      alookup (openDir exSu exR2 "" ⟨OK, []⟩).1.dirs "" =
        some (((alookup exSu.dirs "").getD []) ++ [exR2])) ∧
    openDir exSu exR2 "sub" ⟨OK, []⟩ = (exSu, ENOENT) ∧
    OpenDir exS4 "sub" (fun _ => ⟨OK, []⟩) = (exS4, none, ENOENT) :=
  ⟨C5_empty_listing_root_ok_nonroot_enoent.1 exSu exR2,
    C5_empty_listing_root_ok_nonroot_enoent.2.1 exSu exR2 "sub" (by decide),
    C5_empty_listing_root_ok_nonroot_enoent.2.2 exS4 "sub"
      (fun _ => ⟨OK, []⟩) [exR1] (by decide) (by decide) (by decide)
      (fun r _ => rfl)⟩

/-- Claim C8 amended: entries of a directory appear in listing order —
one listing appends its registrable entries in order to the existing
contents, and a union across several remotes appends the per-remote
entry blocks in configured remote order; entry removal, however, does
not preserve the order: it moves the last entry into the removed slot,
so the resulting list is a permutation of (generally not equal to) the
order-preserving removal. -/
theorem C8_entries_append_in_order_removal_permutes :
    (∀ (s : FSState) (r : Remote) (name : String) (l : Listing),
      l.status = OK → l.objects ≠ [] →
      (∃ obj ∈ l.objects, obj.name ≠ name) →
      alookup (openDir s r name l).1.dirContents name =
        some (((alookup s.dirContents name).getD []) ++
          entriesFor name (remotePrefix r name) l.objects)) ∧
    (∀ (name : String) (listing : ListingOracle) (rs : List Remote)
      (s : FSState), rs ≠ [] →
      (∀ r ∈ rs, (listing r).status = OK ∧ (listing r).objects ≠ [] ∧
        ∃ obj ∈ (listing r).objects, obj.name ≠ name) →
      alookup (openDirAll s rs name listing).dirContents name =
        some (((alookup s.dirContents name).getD []) ++
          rs.flatMap (fun r =>
            entriesFor name (remotePrefix r name) (listing r).objects))) ∧
    (∀ (s : FSState) (name : String) (l : List DirEntry),
      alookup s.dirContents (parentOf name) = some l →
      ∃ l₂,
        alookup (rmEntryFromItsDir s name).dirContents (parentOf name) =
          some l₂ ∧
        l₂.Perm (l.eraseP (fun e => e.name = goBase name))) :=
  ⟨fun s r name l h1 h2 h3 => (openDir_appends s r name l h1 h2 h3).2,
    fun name listing rs s h1 h2 => openDirAll_appends name listing rs s h1 h2,
    fun s name l hl => rmEntry_dirContents_perm s name hl⟩

/-- Witness for C8 amended: a two-object listing appends its two entries
to the root contents of the example state; a two-remote union appends
the two per-remote blocks in order; and removing "a" from the three-entry
fixture yields a permutation of the order-preserving removal. -/
theorem C8_witness :
    alookup (openDir exSu exR1 ""
        ⟨OK, [⟨"x.txt", 3, 7⟩, ⟨"d/", 0, 7⟩]⟩).1.dirContents "" =
      some (((alookup exSu.dirContents "").getD []) ++
        entriesFor "" (remotePrefix exR1 "")
          [⟨"x.txt", 3, 7⟩, ⟨"d/", 0, 7⟩]) ∧
    alookup (openDirAll exSu [exR1, exR2] ""
        (fun _ => ⟨OK, [⟨"x.txt", 3, 7⟩]⟩)).dirContents "" =
      some (((alookup exSu.dirContents "").getD []) ++
        ([exR1, exR2].flatMap (fun r =>
          entriesFor "" (remotePrefix r "") [⟨"x.txt", 3, 7⟩]))) ∧
    ∃ l₂,
      alookup (rmEntryFromItsDir exS3 "a").dirContents (parentOf "a") =
        some l₂ ∧
      l₂.Perm (([⟨"a", S_IFREG⟩, ⟨"b", S_IFREG⟩,
        ⟨"c", S_IFREG⟩] : List DirEntry).eraseP
          (fun e => e.name = goBase "a")) :=
  ⟨C8_entries_append_in_order_removal_permutes.1 exSu exR1 ""
      ⟨OK, [⟨"x.txt", 3, 7⟩, ⟨"d/", 0, 7⟩]⟩ rfl (by decide) (by decide),
    C8_entries_append_in_order_removal_permutes.2.1 ""
      (fun _ => ⟨OK, [⟨"x.txt", 3, 7⟩]⟩) [exR1, exR2] exSu (by decide)
      (fun r _ => ⟨rfl, by simp, ⟨"x.txt", 3, 7⟩, by simp, by decide⟩),
    C8_entries_append_in_order_removal_permutes.2.2 exS3 "a"
      [⟨"a", S_IFREG⟩, ⟨"b", S_IFREG⟩, ⟨"c", S_IFREG⟩] (by decide)⟩

theorem FreshFor_mono {forb₁ forb₂ : List String} {name : String}
    {listing : ListingOracle} (hsub : ∀ p ∈ forb₂, p ∈ forb₁)
    (h : FreshFor forb₁ name listing) : FreshFor forb₂ name listing :=
  fun r p hp hmem => h r p hp (hsub p hmem)

theorem nsInv_def (s : FSState) : nsInv s ↔ inv1 s ∧ inv2 s := Iff.rfl

theorem addNewEntry_pres (s : FSState) (name : String) (mode : Nat)
    (listing : ListingOracle)
    (hdw : ∀ prs ∈ s.dirs, ∀ r ∈ prs.2, r ∈ s.remotes)
    (hfresh : FreshFor s.createdFiles (parentOf name) listing)
    (h : nsInv s) :
    nsInv (addNewEntryToItsDir s name mode listing) ∧
    (addNewEntryToItsDir s name mode listing).remotes = s.remotes ∧
    (addNewEntryToItsDir s name mode listing).writeRemote = s.writeRemote ∧
    (addNewEntryToItsDir s name mode listing).createdFiles =
      s.createdFiles ∧
    (∀ p, (alookup s.files p).isSome = true →
      (alookup (addNewEntryToItsDir s name mode listing).files p).isSome =
        true) ∧
    (∀ p, p ∉ s.createdFiles →
      alookup (addNewEntryToItsDir s name mode listing).fileToRemote name =
        alookup (addNewEntryToItsDir s name mode listing).fileToRemote
          name) := by
  unfold addNewEntryToItsDir
  dsimp only
  by_cases hc : (alookup s.dirContents (parentOf name)).isSome = true
  · rw [if_pos hc]
    exact ⟨h, rfl, rfl, rfl, fun p hp => hp, fun _ _ => rfl⟩
  · rw [if_neg hc]
    rcases hds : alookup s.dirs (parentOf name) with _ | rs
    · exact ⟨h, rfl, rfl, rfl, fun p hp => hp, fun _ _ => rfl⟩
    · have hrs : ∀ r ∈ rs, r ∈ s.remotes :=
        fun r hr => hdw _ (alookup_mem hds) r hr
      have hinv1 := openDirAll_inv1 (parentOf name) listing rs s hrs h.1
      have hinv2 := openDirAll_inv2 (parentOf name) listing rs s
        (fun r p hp => hfresh r p hp) h.2
      have hf := openDirAll_fields (parentOf name) listing rs s
      exact ⟨⟨hinv1, hinv2⟩, hf.1, hf.2.1, hf.2.2.1,
        fun p hp => openDirAll_files_isSome (parentOf name) listing rs s p hp,
        fun _ _ => rfl⟩

theorem Create_pres_existing (s : FSState) (name : String) (flags : Nat)
    (o : CreateOracle)
    (hw : ∀ w ∈ s.writeRemote.toList, w ∈ s.remotes ∧ w.write = true)
    (h1 : (alookup s.files name).isSome = true)
    (h2 : alookup s.fileToRemote name = s.writeRemote)
    (h : nsInv s) : nsInv (Create s name flags o).1 := by
  unfold Create
  rcases hwr : s.writeRemote with _ | r
  · exact h
  · dsimp only
    obtain ⟨hrmem, _⟩ := hw r (by rw [hwr]; simp)
    by_cases hmx : r.cacheData = true ∧ ¬o.mutexOk = true
    · rw [if_pos hmx]
      exact h
    · rw [if_neg hmx, if_neg (fun hc => hc h1)]
      rcases hfl : alookup s.files name with _ | attr
      · rw [hfl] at h1
        simp at h1
      · dsimp only
        constructor
        · -- invariant 1
          intro pa hpa
          rcases mem_aupsert hpa with hpe | hpm
          · refine ⟨r, hrmem, ?_⟩
            rw [hpe]
            dsimp only
            rw [h2, hwr]
          · by_cases hpn : pa.1 = name
            · refine ⟨r, hrmem, ?_⟩
              rw [hpn, h2, hwr]
            · exact h.1 pa hpm
        · -- invariant 2
          intro p hp
          rcases mem_setInsert hp with hpe | hpm
          · subst hpe
            refine ⟨alookup_isSome_aupsert _ _ _ _ h1, ?_⟩
            show alookup s.fileToRemote p = some r
            rw [h2, hwr]
          · obtain ⟨hsome, hwp⟩ := h.2 p hpm
            refine ⟨alookup_isSome_aupsert _ _ _ _ hsome, ?_⟩
            show alookup s.fileToRemote p = some r
            rw [hwp, hwr]

theorem Create_pres_new (s : FSState) (name : String) (flags : Nat)
    (o : CreateOracle)
    (hw : ∀ w ∈ s.writeRemote.toList, w ∈ s.remotes ∧ w.write = true)
    (hdw : ∀ prs ∈ s.dirs, ∀ r ∈ prs.2, r ∈ s.remotes)
    (hnone : alookup s.files name = none)
    (hfresh : FreshFor s.createdFiles (parentOf name) o.listing)
    (h : nsInv s) : nsInv (Create s name flags o).1 := by
  unfold Create
  rcases hwr : s.writeRemote with _ | r
  · exact h
  · dsimp only
    obtain ⟨hrmem, _⟩ := hw r (by rw [hwr]; simp)
    by_cases hmx : r.cacheData = true ∧ ¬o.mutexOk = true
    · rw [if_pos hmx]
      exact h
    · rw [if_neg hmx, if_pos (by rw [hnone]; simp)]
      obtain ⟨ha, hrem, hwrem, hcreated, hmono, _⟩ :=
        addNewEntry_pres s name S_IFREG o.listing hdw hfresh h
      set s₁ := addNewEntryToItsDir s name S_IFREG o.listing with hs₁
      constructor
      · -- invariant 1
        intro pa hpa
        dsimp only at hpa
        rcases mem_aupsert hpa with hpe | hpm
        · refine ⟨r, by rw [hrem]; exact hrmem, ?_⟩
          rw [hpe]
          exact alookup_aupsert_self _ _ _
        · by_cases hpn : pa.1 = name
          · refine ⟨r, by rw [hrem]; exact hrmem, ?_⟩
            rw [hpn]
            exact alookup_aupsert_self _ _ _
          · obtain ⟨r₀, hr₀, hl₀⟩ := ha.1 pa hpm
            refine ⟨r₀, hr₀, ?_⟩
            rw [alookup_aupsert_ne _ _ _ _ hpn]
            exact hl₀
      · -- invariant 2
        intro p hp
        dsimp only at hp
        rcases mem_setInsert hp with hpe | hpm
        · subst hpe
          refine ⟨?_, ?_⟩
          · dsimp only
            rw [alookup_aupsert_self]
            rfl
          · dsimp only
            rw [alookup_aupsert_self, hwrem, hwr]
        · rw [hcreated] at hpm
          have hpn : p ≠ name := by
            intro hpe
            obtain ⟨hsome, _⟩ := h.2 p hpm
            rw [hpe, hnone] at hsome
            simp at hsome
          obtain ⟨hsome, hwp⟩ := ha.2 p (by rw [hcreated]; exact hpm)
          refine ⟨?_, ?_⟩
          · dsimp only
            rw [alookup_aupsert_ne _ _ _ _ hpn]
            exact hsome
          · dsimp only
            rw [alookup_aupsert_ne _ _ _ _ hpn, hwp, hwrem]

theorem nsInv_congr {s t : FSState} (hr : t.remotes = s.remotes)
    (hw : t.writeRemote = s.writeRemote) (hf : t.files = s.files)
    (hft : t.fileToRemote = s.fileToRemote)
    (hc : t.createdFiles = s.createdFiles) (h : nsInv s) : nsInv t := by
  constructor
  · intro pa hpa
    rw [hf] at hpa
    obtain ⟨r, hrm, hl⟩ := h.1 pa hpa
    exact ⟨r, by rw [hr]; exact hrm, by rw [hft]; exact hl⟩
  · intro p hp
    rw [hc] at hp
    obtain ⟨h1, h2⟩ := h.2 p hp
    exact ⟨by rw [hf]; exact h1, by rw [hft, hw]; exact h2⟩

theorem nsInv_files_refresh (s : FSState) (name : String) (attr' : Attr)
    (hfi : (alookup s.files name).isSome = true) (h : nsInv s) :
    nsInv { s with files := aupsert s.files name attr' } := by
  obtain ⟨a, ha⟩ := Option.isSome_iff_exists.mp hfi
  obtain ⟨r₀, hr₀, hl₀⟩ := h.1 (name, a) (alookup_mem ha)
  constructor
  · intro pa hpa
    dsimp only at hpa
    rcases mem_aupsert hpa with hpe | hpm
    · exact ⟨r₀, hr₀, by rw [hpe]; exact hl₀⟩
    · by_cases hpn : pa.1 = name
      · exact ⟨r₀, hr₀, by rw [hpn]; exact hl₀⟩
      · exact h.1 pa hpm
  · intro p hp
    obtain ⟨h1, h2⟩ := h.2 p hp
    exact ⟨alookup_isSome_aupsert _ _ _ _ h1, h2⟩

theorem fileDetails_write {s : FSState} {name : String} {attr : Attr}
    {r : Remote} {st : Status}
    (h : fileDetails s name true = (some (attr, r), st))
    (hne : st ≠ EPERM) : r.write = true := by
  unfold fileDetails at h
  rcases hf : alookup s.files name with _ | a
  · rw [hf] at h
    cases h
  · rw [hf] at h
    rcases hr : alookup s.fileToRemote name with _ | r₀
    · rw [hr] at h
      cases h
    · rw [hr] at h
      dsimp only at h
      by_cases hwr : r₀.write = true
      · rw [if_neg (by simp [hwr])] at h
        simp only [Prod.mk.injEq, Option.some.injEq] at h
        obtain ⟨⟨-, hre⟩, -⟩ := h
        rw [← hre]
        exact hwr
      · rw [if_pos ⟨rfl, by simpa using hwr⟩] at h
        simp only [Prod.mk.injEq] at h
        exact absurd h.2.symm hne

theorem GetAttr_pres (s : FSState) (name : String) (listing : ListingOracle)
    (hdw : ∀ prs ∈ s.dirs, ∀ r ∈ prs.2, r ∈ s.remotes)
    (hfresh : FreshFor s.createdFiles (parentOfG name) listing)
    (h : nsInv s) : nsInv (GetAttr s name listing).1 := by
  unfold GetAttr
  dsimp only
  by_cases h1 : (alookup s.dirs name).isSome = true
  · rw [if_pos h1]
    exact h
  · rw [if_neg h1]
    by_cases h2 : (alookup s.files name).isSome = true
    · rw [if_pos h2]
      exact h
    · rw [if_neg h2]
      by_cases h3 : (alookup s.dirContents (parentOfG name)).isSome = true
      · rw [if_pos h3]
        exact h
      · rw [if_neg h3]
        rcases hds : alookup s.dirs (parentOfG name) with _ | rs
        · split_ifs <;> exact h
        · have hinv : nsInv (openDirAll s rs (parentOfG name) listing) :=
            ⟨openDirAll_inv1 _ _ rs s
              (fun r hr => hdw _ (alookup_mem hds) r hr) h.1,
             openDirAll_inv2 _ _ rs s (fun r p hp => hfresh r p hp) h.2⟩
          split_ifs <;> exact hinv

theorem OpenDir_pres (s : FSState) (name : String) (listing : ListingOracle)
    (hdw : ∀ prs ∈ s.dirs, ∀ r ∈ prs.2, r ∈ s.remotes)
    (hfresh : FreshFor s.createdFiles name listing)
    (h : nsInv s) : nsInv (OpenDir s name listing).1 := by
  unfold OpenDir
  rcases hds : alookup s.dirs name with _ | remotes
  · exact h
  · rcases hdc : alookup s.dirContents name with _ | entries
    · dsimp only
      have hinv : nsInv (openDirAll s remotes name listing) :=
        ⟨openDirAll_inv1 _ _ remotes s
          (fun r hr => hdw _ (alookup_mem hds) r hr) h.1,
         openDirAll_inv2 _ _ remotes s (fun r p hp => hfresh r p hp) h.2⟩
      rcases alookup (openDirAll s remotes name listing).dirContents name
        with _ | entries₂ <;> exact hinv
    · exact h

theorem Unlink_pres (s : FSState) (name : String) (ds : Status)
    (h : nsInv s) : nsInv (Unlink s name ds).1 := by
  unfold Unlink
  rcases hfd : fileDetails s name true with ⟨_ | ⟨a, r⟩, st⟩ <;>
    cases st <;> try exact h
  all_goals {
    dsimp only
    have h₁ : nsInv (if r.cacheData = true then
        cacheDelete s (r.getLocalPath (r.getRemotePath name)) else s) := by
      by_cases hc : r.cacheData = true
      · rw [if_pos hc]
        exact h
      · rw [if_neg hc]
        exact h
    set s₁ := if r.cacheData = true then
      cacheDelete s (r.getLocalPath (r.getRemotePath name)) else s with hs₁
    have hfields : s₁.files = s.files ∧ s₁.fileToRemote = s.fileToRemote ∧
        s₁.createdFiles = s.createdFiles ∧ s₁.remotes = s.remotes ∧
        s₁.writeRemote = s.writeRemote := by
      rw [hs₁]
      by_cases hc : r.cacheData = true
      · rw [if_pos hc]
        exact ⟨rfl, rfl, rfl, rfl, rfl⟩
      · rw [if_neg hc]
        exact ⟨rfl, rfl, rfl, rfl, rfl⟩
    by_cases hds : ds ≠ OK
    · rw [if_pos hds]
      exact h₁
    · rw [if_neg hds]
      dsimp only
      have h₂ : nsInv { s₁ with
          files := aerase s₁.files name
          fileToRemote := aerase s₁.fileToRemote name
          createdFiles := setErase s₁.createdFiles name } := by
        constructor
        · intro pa hpa
          dsimp only at hpa
          obtain ⟨hpm, hpn⟩ := mem_aerase hpa
          rw [hfields.1] at hpm
          obtain ⟨r₀, hr₀, hl₀⟩ := h.1 pa hpm
          refine ⟨r₀, ?_, ?_⟩
          · show r₀ ∈ s₁.remotes
            rw [hfields.2.2.2.1]
            exact hr₀
          · show alookup (aerase s₁.fileToRemote name) pa.1 = some r₀
            rw [alookup_aerase_ne _ _ _ hpn, hfields.2.1]
            exact hl₀
        · intro p hp
          dsimp only at hp
          obtain ⟨hpm, hpn⟩ := mem_setErase hp
          rw [hfields.2.2.1] at hpm
          obtain ⟨hi1, hi2⟩ := h.2 p hpm
          refine ⟨?_, ?_⟩
          · show (alookup (aerase s₁.files name) p).isSome = true
            rw [alookup_aerase_ne _ _ _ hpn, hfields.1]
            exact hi1
          · show alookup (aerase s₁.fileToRemote name) p = s₁.writeRemote
            rw [alookup_aerase_ne _ _ _ hpn, hfields.2.1,
              hfields.2.2.2.2]
            exact hi2
      obtain ⟨hrf, hrft, hrc, hrr, hrw, -, -⟩ := rmEntry_fields { s₁ with
          files := aerase s₁.files name
          fileToRemote := aerase s₁.fileToRemote name
          createdFiles := setErase s₁.createdFiles name } name
      exact nsInv_congr hrr hrw hrf hrft hrc h₂ }

theorem Truncate_pres (s : FSState) (name : String) (offset : Nat)
    (o : TruncOracle)
    (hw2 : ∀ r ∈ s.remotes, r.write = true → s.writeRemote = some r)
    (h : nsInv s) : nsInv (Truncate s name offset o).1 := by
  unfold Truncate
  rcases hfd : fileDetails s name true with ⟨_ | ⟨a, r⟩, st⟩ <;>
    cases st <;> try exact h
  all_goals {
    obtain ⟨hl1, hl2⟩ := fileDetails_ok hfd
    have hwrit : r.write = true := fileDetails_write hfd (by decide)
    have hrmem : r ∈ s.remotes := by
      obtain ⟨r', hr', hlr⟩ := h.1 (name, a) (alookup_mem hl1)
      rw [hl2] at hlr
      injection hlr with hre
      rw [hre]
      exact hr'
    have hwrm : s.writeRemote = some r := hw2 r hrmem hwrit
    dsimp only
    by_cases hoff : offset > a.size
    · rw [if_pos hoff]
      exact h
    · rw [if_neg hoff]
      by_cases hcd : r.cacheData = true
      · rw [if_pos hcd]
        by_cases hmx : ¬o.mutexOk = true
        · rw [if_pos hmx]
          exact h
        · rw [if_neg hmx]
          split
          · split_ifs <;> exact h
          · rename_i s₁ heq
            have hs₁ : s₁.files = s.files ∧ s₁.fileToRemote = s.fileToRemote ∧
                s₁.createdFiles = s.createdFiles ∧ s₁.remotes = s.remotes ∧
                s₁.writeRemote = s.writeRemote := by
              split_ifs at heq <;> (try cases heq) <;>
                exact ⟨rfl, rfl, rfl, rfl, rfl⟩
            rw [hs₁.1, hl1]
            dsimp only
            constructor
            · intro pa hpa
              dsimp only at hpa
              rcases mem_aupsert hpa with hpe | hpm
              · refine ⟨r, ?_, ?_⟩
                · show r ∈ s₁.remotes
                  rw [hs₁.2.2.2.1]
                  exact hrmem
                · show alookup s₁.fileToRemote pa.1 = some r
                  rw [hs₁.2.1, hpe]
                  exact hl2
              · by_cases hpn : pa.1 = name
                · refine ⟨r, ?_, ?_⟩
                  · show r ∈ s₁.remotes
                    rw [hs₁.2.2.2.1]
                    exact hrmem
                  · show alookup s₁.fileToRemote pa.1 = some r
                    rw [hs₁.2.1, hpn]
                    exact hl2
                · obtain ⟨r₀, hr₀, hl₀⟩ := h.1 pa hpm
                  refine ⟨r₀, ?_, ?_⟩
                  · show r₀ ∈ s₁.remotes
                    rw [hs₁.2.2.2.1]
                    exact hr₀
                  · show alookup s₁.fileToRemote pa.1 = some r₀
                    rw [hs₁.2.1]
                    exact hl₀
            · intro p hp
              dsimp only at hp
              rcases mem_setInsert hp with hpe | hpm
              · subst hpe
                refine ⟨?_, ?_⟩
                · exact alookup_isSome_aupsert _ _ _ _ (by rw [hl1]; rfl)
                · show alookup s₁.fileToRemote p = s₁.writeRemote
                  rw [hs₁.2.1, hs₁.2.2.2.2, hwrm]
                  exact hl2
              · rw [hs₁.2.2.1] at hpm
                obtain ⟨hi1, hi2⟩ := h.2 p hpm
                refine ⟨?_, ?_⟩
                · exact alookup_isSome_aupsert _ _ _ _ hi1
                · show alookup s₁.fileToRemote p = s₁.writeRemote
                  rw [hs₁.2.1, hs₁.2.2.2.2]
                  exact hi2
      · rw [if_neg hcd]
        exact h }

theorem Mkdir_pres (s : FSState) (name : String) (o : MkdirOracle)
    (hdw : ∀ prs ∈ s.dirs, ∀ r ∈ prs.2, r ∈ s.remotes)
    (hw3 : ∀ w ∈ s.writeRemote.toList, w ∈ s.remotes ∧ w.write = true)
    (hfresh : FreshFor s.createdFiles (parentOf name) o.listing)
    (h : nsInv s) : nsInv (Mkdir s name o).1 := by
  unfold Mkdir
  rcases hwr : s.writeRemote with _ | w
  · exact h
  · dsimp only
    obtain ⟨hwm, -⟩ := hw3 w (by rw [hwr]; simp)
    by_cases h1 : (alookup s.dirs name).isSome = true
    · rw [if_pos h1]
      exact h
    · rw [if_neg h1]
      by_cases h2 : (alookup s.dirs (parentOf name)).isNone = true
      · rw [if_pos h2]
        exact h
      · rw [if_neg h2]
        by_cases h3 : w.cacheData = true ∧ ¬o.mkdirOk = true
        · rw [if_pos h3]
          exact h
        · rw [if_neg h3]
          dsimp only
          have hnone : alookup s.dirs name = none := by
            cases hx : alookup s.dirs name
            · rfl
            · rw [hx] at h1
              simp at h1
          have hdw1 : ∀ prs ∈ aupsert s.dirs name
              (((alookup s.dirs name).getD []) ++ [w]),
              ∀ r ∈ prs.2, r ∈ s.remotes := by
            intro prs hprs r hr
            rcases mem_aupsert hprs with hpe | hpm
            · rw [hpe] at hr
              rw [hnone] at hr
              simp only [Option.getD_none, List.nil_append,
                List.mem_singleton] at hr
              rw [hr]
              exact hwm
            · exact hdw _ hpm r hr
          by_cases h4 : (alookup s.dirContents name).isSome = true
          · rw [if_pos h4]
            refine (addNewEntry_pres _ name S_IFDIR o.listing ?_ ?_ ?_).1
            · exact hdw1
            · exact hfresh
            · refine nsInv_congr ?_ ?_ ?_ ?_ ?_ h
              · rfl
              · exact hwr.symm
              · rfl
              · rfl
              · rfl
          · rw [if_neg h4]
            refine (addNewEntry_pres _ name S_IFDIR o.listing ?_ ?_ ?_).1
            · exact hdw1
            · exact hfresh
            · refine nsInv_congr ?_ ?_ ?_ ?_ ?_ h
              · rfl
              · exact hwr.symm
              · rfl
              · rfl
              · rfl

theorem Rmdir_pres (s : FSState) (name : String) (rok : Bool)
    (h : nsInv s) : nsInv (Rmdir s name rok).1 := by
  unfold Rmdir
  rcases hwr : s.writeRemote with _ | w
  · exact h
  · dsimp only
    split_ifs with h1 h2 h3
    · exact h
    · exact h
    · exact h
    · refine nsInv_congr ?_ ?_ ?_ ?_ ?_ h
      · exact ((rmEntry_fields _ name).2.2.2.1).trans rfl
      · exact ((rmEntry_fields _ name).2.2.2.2.1).trans hwr.symm
      · exact ((rmEntry_fields _ name).1).trans rfl
      · exact ((rmEntry_fields _ name).2.1).trans rfl
      · exact ((rmEntry_fields _ name).2.2.1).trans rfl

theorem Utimens_pres (s : FSState) (name : String) (o : UtimensOracle)
    (h : nsInv s) : nsInv (Utimens s name o).1 := by
  unfold Utimens
  rcases hfd : fileDetails s name true with ⟨_ | ⟨a, r⟩, st⟩ <;>
    cases st <;> try exact h
  all_goals try (split_ifs <;> exact h)
  all_goals {
    obtain ⟨hl1, -⟩ := fileDetails_ok hfd
    dsimp only
    split_ifs with hc hle hch
    · exact nsInv_files_refresh s name _ (by rw [hl1]; rfl) h
    · exact h
    · exact h
    · exact h }

theorem Symlink_pres (s : FSState) (source dest : String) (o : SymlinkOracle)
    (hdw : ∀ prs ∈ s.dirs, ∀ r ∈ prs.2, r ∈ s.remotes)
    (hw3 : ∀ w ∈ s.writeRemote.toList, w ∈ s.remotes ∧ w.write = true)
    (hfresh : FreshFor s.createdFiles (parentOf dest) o.listing)
    (h : nsInv s) : nsInv (Symlink s source dest o).1 := by
  unfold Symlink
  rcases hwr : s.writeRemote with _ | w
  · exact h
  · dsimp only
    obtain ⟨hwm, -⟩ := hw3 w (by rw [hwr]; simp)
    split_ifs with h1 h2 h3
    rotate_left 1
    · exact h
    · exact h
    · exact h
    · obtain ⟨ha, hrem, hwrem, hcreated, hmono, -⟩ :=
        addNewEntry_pres s dest S_IFLNK o.listing hdw hfresh h
      set s₁ := addNewEntryToItsDir s dest S_IFLNK o.listing with hs₁
      constructor
      · intro pa hpa
        dsimp only at hpa
        rcases mem_aupsert hpa with hpe | hpm
        · refine ⟨w, ?_, ?_⟩
          · show w ∈ s₁.remotes
            rw [hrem]
            exact hwm
          · rw [hpe]
            exact alookup_aupsert_self _ _ _
        · by_cases hpn : pa.1 = dest
          · refine ⟨w, ?_, ?_⟩
            · show w ∈ s₁.remotes
              rw [hrem]
              exact hwm
            · rw [hpn]
              exact alookup_aupsert_self _ _ _
          · obtain ⟨r₀, hr₀, hl₀⟩ := ha.1 pa hpm
            exact ⟨r₀, hr₀,
              by rw [alookup_aupsert_ne _ _ _ _ hpn]; exact hl₀⟩
      · intro p hp
        dsimp only at hp
        obtain ⟨hi1, hi2⟩ := ha.2 p hp
        by_cases hpn : p = dest
        · subst hpn
          refine ⟨?_, ?_⟩
          · exact alookup_isSome_aupsert _ _ _ _ hi1
          · show alookup (aupsert s₁.fileToRemote p w) p = s₁.writeRemote
            rw [alookup_aupsert_self, hwrem, hwr]
        · refine ⟨?_, ?_⟩
          · exact alookup_isSome_aupsert _ _ _ _ hi1
          · show alookup (aupsert s₁.fileToRemote dest w) p = s₁.writeRemote
            rw [alookup_aupsert_ne _ _ _ _ hpn]
            exact hi2

theorem alookup_aupsert_self_isSome {α : Type} (m : List (String × α))
    (k : String) (v : α) : (alookup (aupsert m k v) k).isSome = true := by
  rw [alookup_aupsert_self]
  rfl

theorem nsInv_scrub (t : FSState) (old : String) (h : nsInv t) :
    nsInv (rmEntryFromItsDir { t with
      files := aerase t.files old
      fileToRemote := aerase t.fileToRemote old
      createdFiles := setErase t.createdFiles old } old) := by
  have h₂ : nsInv { t with
      files := aerase t.files old
      fileToRemote := aerase t.fileToRemote old
      createdFiles := setErase t.createdFiles old } := by
    constructor
    · intro pa hpa
      dsimp only at hpa
      obtain ⟨hpm, hpn⟩ := mem_aerase hpa
      obtain ⟨r₀, hr₀, hl₀⟩ := h.1 pa hpm
      refine ⟨r₀, hr₀, ?_⟩
      show alookup (aerase t.fileToRemote old) pa.1 = some r₀
      rw [alookup_aerase_ne _ _ _ hpn]
      exact hl₀
    · intro p hp
      dsimp only at hp
      obtain ⟨hpm, hpn⟩ := mem_setErase hp
      obtain ⟨hi1, hi2⟩ := h.2 p hpm
      refine ⟨?_, ?_⟩
      · show (alookup (aerase t.files old) p).isSome = true
        rw [alookup_aerase_ne _ _ _ hpn]
        exact hi1
      · show alookup (aerase t.fileToRemote old) p = t.writeRemote
        rw [alookup_aerase_ne _ _ _ hpn]
        exact hi2
  refine nsInv_congr ?_ ?_ ?_ ?_ ?_ h₂
  · exact ((rmEntry_fields _ old).2.2.2.1).trans rfl
  · exact ((rmEntry_fields _ old).2.2.2.2.1).trans rfl
  · exact ((rmEntry_fields _ old).1).trans rfl
  · exact ((rmEntry_fields _ old).2.1).trans rfl
  · exact ((rmEntry_fields _ old).2.2.1).trans rfl

theorem Rename_pres (s : FSState) (oldPath newPath : String)
    (o : RenameOracle)
    (hdw : ∀ prs ∈ s.dirs, ∀ r ∈ prs.2, r ∈ s.remotes)
    (hpar : ∀ pr ∈ s.fileToRemote, (alookup s.files pr.1).isSome = true)
    (hfresh : FreshFor (newPath :: s.createdFiles) (parentOf newPath)
      o.listing)
    (hd : oldPath ∈ s.createdFiles ∨ newPath ∉ s.createdFiles ∨
      alookup s.fileToRemote oldPath = s.writeRemote)
    (h : nsInv s) : nsInv (Rename s oldPath newPath o).1 := by
  unfold Rename
  rcases hwr : s.writeRemote with _ | w
  · exact h
  · dsimp only
    by_cases g1 : ¬(alookup s.dirs oldPath).isSome = true ∧
      (alookup s.fileToRemote oldPath).isNone = true
    · rw [if_pos g1]
      exact h
    · rw [if_neg g1]
      by_cases g2 : (alookup s.dirs oldPath).isSome = true ∧
        oldPath ∉ s.createdDirs
      · rw [if_pos g2]
        exact h
      · rw [if_neg g2]
        by_cases g3 : (alookup s.dirs oldPath).isSome = true ∧
          (alookup s.dirs (parentOf newPath)).isNone = true
        · rw [if_pos g3]
          exact h
        · rw [if_neg g3]
          by_cases hdir : (alookup s.dirs oldPath).isSome = true
          · rw [if_pos hdir]
            by_cases hcd : w.cacheData = true
            · rw [if_pos hcd]
              by_cases hld : ¬o.localDirOk = true
              · rw [if_pos hld]
                exact h
              · rw [if_neg hld]
                dsimp only
                refine (addNewEntry_pres _ newPath S_IFDIR o.listing
                  ?_ ?_ ?_).1
                · intro prs hprs r hr
                  rw [(rmEntry_fields _ oldPath).2.2.2.2.2.1] at hprs
                  obtain ⟨hm, hne⟩ := mem_aerase hprs
                  rcases mem_aupsert hm with hpe | hpm
                  · rw [hpe] at hr
                    dsimp only at hr
                    rcases hold : alookup s.dirs oldPath with _ | l
                    · rw [hold] at hr
                      simp at hr
                    · rw [hold, Option.getD_some] at hr
                      have hrm := hdw (oldPath, l) (alookup_mem hold) r hr
                      show r ∈ (rmEntryFromItsDir _ oldPath).remotes
                      rw [(rmEntry_fields _ oldPath).2.2.2.1]
                      exact hrm
                  · have hrm := hdw prs hpm r hr
                    show r ∈ (rmEntryFromItsDir _ oldPath).remotes
                    rw [(rmEntry_fields _ oldPath).2.2.2.1]
                    exact hrm
                · refine FreshFor_mono ?_ hfresh
                  intro p hp
                  rw [(rmEntry_fields _ oldPath).2.2.1] at hp
                  exact List.mem_cons_of_mem _ hp
                · refine nsInv_congr ?_ ?_ ?_ ?_ ?_ h
                  · exact ((rmEntry_fields _ oldPath).2.2.2.1).trans rfl
                  · exact ((rmEntry_fields _ oldPath).2.2.2.2.1).trans
                      hwr.symm
                  · exact ((rmEntry_fields _ oldPath).1).trans rfl
                  · exact ((rmEntry_fields _ oldPath).2.1).trans rfl
                  · exact ((rmEntry_fields _ oldPath).2.2.1).trans rfl
            · rw [if_neg hcd]
              exact h
          · rw [if_neg hdir]
            by_cases hcp : o.copyStatus ≠ OK
            · rw [if_pos hcp]
              exact h
            · rw [if_neg hcp]
              split
              · exact h
              · rename_i s₁ heq
                have hs₁ : s₁.files = s.files ∧
                    s₁.fileToRemote = s.fileToRemote ∧
                    s₁.createdFiles = s.createdFiles ∧
                    s₁.remotes = s.remotes ∧
                    s₁.writeRemote = s.writeRemote ∧
                    s₁.dirs = s.dirs := by
                  split_ifs at heq <;> (try cases heq) <;>
                    exact ⟨rfl, rfl, rfl, rfl, rfl, rfl⟩
                have hftrS : (alookup s.fileToRemote oldPath).isSome =
                    true := by
                  by_contra hc
                  apply g1
                  refine ⟨hdir, ?_⟩
                  cases hx : alookup s.fileToRemote oldPath
                  · rfl
                  · rw [hx] at hc
                    simp at hc
                obtain ⟨rOld, hrOld⟩ := Option.isSome_iff_exists.mp hftrS
                have haS : (alookup s.files oldPath).isSome = true :=
                  hpar (oldPath, rOld) (alookup_mem hrOld)
                obtain ⟨aOld, haOld⟩ := Option.isSome_iff_exists.mp haS
                have hrmem : rOld ∈ s.remotes := by
                  obtain ⟨r', hr', hl'⟩ := h.1 (oldPath, aOld)
                    (alookup_mem haOld)
                  rw [hrOld] at hl'
                  injection hl' with he
                  rw [he]
                  exact hr'
                rw [hs₁.2.1, hrOld, hs₁.1, hs₁.2.2.1]
                dsimp only
                have hinv1aux : ∀ t₃ : FSState, t₃.remotes = s.remotes →
                    t₃.writeRemote = s.writeRemote →
                    t₃.files = aupsert s.files newPath
                      ((alookup s.files oldPath).getD ⟨0, 0, 0, 0, 0⟩) →
                    t₃.fileToRemote = aupsert s.fileToRemote newPath rOld →
                    inv1 t₃ := by
                  intro t₃ e1 e2 e3 e4
                  intro pa hpa
                  rw [e3] at hpa
                  rcases mem_aupsert hpa with hpe | hpm
                  · refine ⟨rOld, by rw [e1]; exact hrmem, ?_⟩
                    rw [e4, hpe]
                    exact alookup_aupsert_self _ _ _
                  · by_cases hpn : pa.1 = newPath
                    · refine ⟨rOld, by rw [e1]; exact hrmem, ?_⟩
                      rw [e4, hpn]
                      exact alookup_aupsert_self _ _ _
                    · obtain ⟨r₀, hr₀, hl₀⟩ := h.1 pa hpm
                      refine ⟨r₀, by rw [e1]; exact hr₀, ?_⟩
                      rw [e4, alookup_aupsert_ne _ _ _ _ hpn]
                      exact hl₀
                by_cases hin : oldPath ∈ s.createdFiles
                · rw [if_pos hin]
                  refine nsInv_scrub _ oldPath ?_
                  refine (addNewEntry_pres _ newPath S_IFREG o.listing
                    ?_ ?_ ?_).1
                  · intro prs hprs r hr
                    have hprs' : prs ∈ s₁.dirs := hprs
                    rw [hs₁.2.2.2.2.2] at hprs'
                    have hrm := hdw prs hprs' r hr
                    show r ∈ s₁.remotes
                    rw [hs₁.2.2.2.1]
                    exact hrm
                  · refine FreshFor_mono ?_ hfresh
                    intro p hp
                    obtain ⟨hp1, hp2⟩ := mem_setErase hp
                    rcases mem_setInsert hp1 with he | hm
                    · rw [he]
                      exact List.mem_cons_self _ _
                    · exact List.mem_cons_of_mem _ hm
                  · constructor
                    · exact hinv1aux _ (hs₁.2.2.2.1) (hs₁.2.2.2.2.1)
                        rfl rfl
                    · intro p hp
                      obtain ⟨hp1, hpne⟩ := mem_setErase hp
                      have hown : some rOld = s.writeRemote := by
                        have hh := (h.2 oldPath hin).2
                        rw [hrOld] at hh
                        exact hh
                      rcases mem_setInsert hp1 with he | hm
                      · subst he
                        refine ⟨alookup_aupsert_self_isSome _ _ _, ?_⟩
                        show alookup (aupsert s.fileToRemote p rOld) p =
                          s₁.writeRemote
                        rw [alookup_aupsert_self, hs₁.2.2.2.2.1]
                        exact hown
                      · obtain ⟨hi1, hi2⟩ := h.2 p hm
                        by_cases hpn : p = newPath
                        · subst hpn
                          refine ⟨alookup_aupsert_self_isSome _ _ _, ?_⟩
                          show alookup (aupsert s.fileToRemote p rOld) p =
                            s₁.writeRemote
                          rw [alookup_aupsert_self, hs₁.2.2.2.2.1]
                          exact hown
                        · refine ⟨alookup_isSome_aupsert _ _ _ _ hi1, ?_⟩
                          show alookup (aupsert s.fileToRemote newPath rOld)
                            p = s₁.writeRemote
                          rw [alookup_aupsert_ne _ _ _ _ hpn, hi2,
                            hs₁.2.2.2.2.1]
                · rw [if_neg hin]
                  refine nsInv_scrub _ oldPath ?_
                  refine (addNewEntry_pres _ newPath S_IFREG o.listing
                    ?_ ?_ ?_).1
                  · intro prs hprs r hr
                    have hprs' : prs ∈ s₁.dirs := hprs
                    rw [hs₁.2.2.2.2.2] at hprs'
                    have hrm := hdw prs hprs' r hr
                    show r ∈ s₁.remotes
                    rw [hs₁.2.2.2.1]
                    exact hrm
                  · refine FreshFor_mono ?_ hfresh
                    intro p hp
                    exact List.mem_cons_of_mem _ hp
                  · constructor
                    · exact hinv1aux _ (hs₁.2.2.2.1) (hs₁.2.2.2.2.1)
                        rfl rfl
                    · intro p hp
                      have hpm : p ∈ s.createdFiles := hp
                      obtain ⟨hi1, hi2⟩ := h.2 p hpm
                      by_cases hpn : p = newPath
                      · subst hpn
                        rcases hd with hd1 | hd2 | hd3
                        · exact absurd hd1 hin
                        · exact absurd hpm hd2
                        · refine ⟨alookup_aupsert_self_isSome _ _ _, ?_⟩
                          show alookup (aupsert s.fileToRemote p rOld) p =
                            s₁.writeRemote
                          rw [alookup_aupsert_self, hs₁.2.2.2.2.1]
                          rw [hrOld] at hd3
                          exact hd3
                      · refine ⟨alookup_isSome_aupsert _ _ _ _ hi1, ?_⟩
                        show alookup (aupsert s.fileToRemote newPath rOld)
                          p = s₁.writeRemote
                        rw [alookup_aupsert_ne _ _ _ _ hpn, hi2,
                          hs₁.2.2.2.2.1]

theorem openCached_staged (s : FSState) (r : Remote) (name : String)
    (flags : Nat) (attr : Attr) (o : OpenOracle) :
    openCached s r name flags attr o =
      if ¬o.mutexOk then (s, none, Status.EIO)
      else
        let (create, s, attr) := openCachedPrep s name flags attr o.localSize
        openCachedFinish name flags attr o
          (r.getLocalPath (r.getRemotePath name))
          (openCachedDownload s r flags attr o
            (r.getLocalPath (r.getRemotePath name)) create) := rfl

theorem openCachedPrep_facts (s : FSState) (name : String) (flags : Nat)
    (attr : Attr) (ls : Option Int)
    (hfiles : (alookup s.files name).isSome = true) (h : nsInv s) :
    nsInv (openCachedPrep s name flags attr ls).2.1 ∧
    (alookup (openCachedPrep s name flags attr ls).2.1.files name).isSome =
      true ∧
    (openCachedPrep s name flags attr ls).2.1.fileToRemote =
      s.fileToRemote ∧
    (openCachedPrep s name flags attr ls).2.1.writeRemote = s.writeRemote ∧
    (openCachedPrep s name flags attr ls).2.1.remotes = s.remotes := by
  unfold openCachedPrep
  rcases ls with _ | sz
  · exact ⟨h, hfiles, rfl, rfl, rfl⟩
  · dsimp only
    split_ifs <;>
      first
      | exact ⟨h, hfiles, rfl, rfl, rfl⟩
      | exact ⟨nsInv_files_refresh s name _ hfiles h,
          alookup_isSome_aupsert _ _ _ _ hfiles, rfl, rfl, rfl⟩

theorem openCachedDownload_facts (t : FSState) (r : Remote) (flags : Nat)
    (attr : Attr) (o : OpenOracle) (lp : String) (create : Bool)
    (h : nsInv t) :
    nsInv (openCachedDownload t r flags attr o lp create).1 ∧
    (openCachedDownload t r flags attr o lp create).1.files = t.files ∧
    (openCachedDownload t r flags attr o lp create).1.fileToRemote =
      t.fileToRemote ∧
    (openCachedDownload t r flags attr o lp create).1.writeRemote =
      t.writeRemote ∧
    (openCachedDownload t r flags attr o lp create).1.remotes =
      t.remotes := by
  unfold openCachedDownload
  cases create <;>
    dsimp only <;>
    split_ifs <;>
      first
      | exact ⟨h, rfl, rfl, rfl, rfl⟩
      | (split <;> (try split_ifs) <;> exact ⟨h, rfl, rfl, rfl, rfl⟩)

theorem openCachedFinish_pres (name : String) (flags : Nat) (attr : Attr)
    (o : OpenOracle) (lp : String) (ast : FSState × Status)
    (hwt : ∀ w ∈ ast.1.writeRemote.toList,
      w ∈ ast.1.remotes ∧ w.write = true)
    (h1t : (alookup ast.1.files name).isSome = true)
    (h2t : hasWriteFlag flags = true →
      alookup ast.1.fileToRemote name = ast.1.writeRemote)
    (ht : nsInv ast.1) :
    nsInv (openCachedFinish name flags attr o lp ast).1 := by
  obtain ⟨t, st⟩ := ast
  unfold openCachedFinish
  dsimp only at *
  by_cases hst : st ≠ OK
  · rw [if_pos hst]
    exact ht
  · rw [if_neg hst]
    by_cases hwf : hasWriteFlag flags = true
    · rw [if_pos hwf]
      by_cases hap : ¬hasFlag flags O_APPEND = true
      · rw [if_pos hap]
        dsimp only
        apply Create_pres_existing
        · exact hwt
        · exact alookup_isSome_aupsert _ _ _ _ h1t
        · exact h2t hwf
        · exact nsInv_files_refresh _ name _ h1t ht
      · rw [if_neg hap]
        dsimp only
        apply Create_pres_existing
        · exact hwt
        · exact h1t
        · exact h2t hwf
        · exact ht
    · rw [if_neg hwf]
      exact ht

theorem openCached_pres (s : FSState) (r : Remote) (name : String)
    (flags : Nat) (attr : Attr) (o : OpenOracle)
    (hw : ∀ w ∈ s.writeRemote.toList, w ∈ s.remotes ∧ w.write = true)
    (hfiles : (alookup s.files name).isSome = true)
    (hftr : alookup s.fileToRemote name = some r)
    (hrw : hasWriteFlag flags = true → s.writeRemote = some r)
    (h : nsInv s) : nsInv (openCached s r name flags attr o).1 := by
  rw [openCached_staged]
  by_cases hmx : ¬o.mutexOk = true
  · rw [if_pos hmx]
    exact h
  · rw [if_neg hmx]
    dsimp only
    obtain ⟨hp, hpf, hpftr, hpwr, hprem⟩ :=
      openCachedPrep_facts s name flags attr o.localSize hfiles h
    obtain ⟨hdn, hdf, hdftr, hdwr, hdrem⟩ :=
      openCachedDownload_facts (openCachedPrep s name flags attr
        o.localSize).2.1 r flags (openCachedPrep s name flags attr
        o.localSize).2.2 o (r.getLocalPath (r.getRemotePath name))
        (openCachedPrep s name flags attr o.localSize).1 hp
    apply openCachedFinish_pres
    · intro w hwmem
      rw [hdwr, hpwr] at hwmem
      obtain ⟨hm1, hm2⟩ := hw w hwmem
      rw [hdrem, hprem]
      exact ⟨hm1, hm2⟩
    · rw [hdf]
      exact hpf
    · intro hwf
      rw [hdftr, hpftr, hdwr, hpwr]
      exact hftr.trans (hrw hwf).symm
    · exact hdn

theorem Open_pres (s : FSState) (name : String) (flags : Nat)
    (o : OpenOracle)
    (hw2 : ∀ r ∈ s.remotes, r.write = true → s.writeRemote = some r)
    (hw3 : ∀ w ∈ s.writeRemote.toList, w ∈ s.remotes ∧ w.write = true)
    (h : nsInv s) : nsInv (Open s name flags o).1 := by
  unfold Open
  dsimp only
  rcases hfd : fileDetails s name (hasWriteFlag flags) with
    ⟨_ | ⟨attr, r⟩, st⟩ <;> cases st <;> try exact h
  obtain ⟨hl1, hl2⟩ := fileDetails_ok hfd
  dsimp only
  by_cases hcd : r.cacheData = true
  · rw [if_pos hcd]
    refine openCached_pres s r name flags attr o hw3
      (by rw [hl1]; rfl) hl2 ?_ h
    intro hwf
    rw [hwf] at hfd
    have hwrit : r.write = true := fileDetails_write hfd (by decide)
    have hrm : r ∈ s.remotes := by
      obtain ⟨r', hr', hl'⟩ := h.1 (name, attr) (alookup_mem hl1)
      rw [hl2] at hl'
      injection hl' with he
      rw [he]
      exact hr'
    exact hw2 r hrm hwrit
  · rw [if_neg hcd]
    exact h

theorem Chmod_id (s : FSState) (name : String) : (Chmod s name).1 = s := by
  unfold Chmod
  cases hst : (fileDetails s name true).2 <;>
    first
    | rfl
    | (split_ifs <;> rfl)

theorem Chown_id (s : FSState) (name : String) : (Chown s name).1 = s := by
  unfold Chown
  cases hst : (fileDetails s name true).2 <;>
    first
    | rfl
    | (split_ifs <;> rfl)

theorem SetXAttr_id (s : FSState) (name : String) :
    (SetXAttr s name).1 = s := by
  unfold SetXAttr
  cases hst : (fileDetails s name true).2 <;>
    first
    | rfl
    | (split_ifs <;> rfl)

theorem RemoveXAttr_id (s : FSState) (name : String) :
    (RemoveXAttr s name).1 = s := by
  unfold RemoveXAttr
  cases hst : (fileDetails s name true).2 <;>
    first
    | rfl
    | (split_ifs <;> rfl)

theorem Access_id (s : FSState) (name : String) : (Access s name).1 = s :=
  rfl

/-- Claim C2 (amended): in a well-formed mounted state, every FUSE
callback preserves the namespace invariant (every `files` entry is owned
by a configured remote, and every created file is a known file owned by
the writeable remote), under the freshness side conditions that listings
never advertise a pending created file, that `Create` is not invoked on
an existing foreign-owned path, and that `Rename` does not move a
foreign-owned file onto a pending created path (the unconditional claim
is refuted by the separate counterexample). The ignored callbacks
(`Chmod`, `Chown`, `SetXAttr`, `RemoveXAttr`, `Access`) do not change
the state at all. -/
theorem C2_callbacks_preserve_namespace_invariant :
    (∀ s name listing, StateWF s → nsInv s →
      FreshFor s.createdFiles (parentOfG name) listing →
      nsInv (GetAttr s name listing).1) ∧
    (∀ s name listing, StateWF s → nsInv s →
      FreshFor s.createdFiles name listing →
      nsInv (OpenDir s name listing).1) ∧
    (∀ s name flags o, StateWF s → nsInv s →
      nsInv (Open s name flags o).1) ∧
    (∀ s name flags o, StateWF s → nsInv s →
      FreshFor s.createdFiles (parentOf name) o.listing →
      (alookup s.files name = none ∨
        alookup s.fileToRemote name = s.writeRemote) →
      nsInv (Create s name flags o).1) ∧
    (∀ s name ds, nsInv s → nsInv (Unlink s name ds).1) ∧
    (∀ s name offset o, StateWF s → nsInv s →
      nsInv (Truncate s name offset o).1) ∧
    (∀ s name o, StateWF s → nsInv s →
      FreshFor s.createdFiles (parentOf name) o.listing →
      nsInv (Mkdir s name o).1) ∧
    (∀ s name rok, nsInv s → nsInv (Rmdir s name rok).1) ∧
    (∀ s oldPath newPath o, StateWF s → nsInv s →
      FreshFor (newPath :: s.createdFiles) (parentOf newPath) o.listing →
      (oldPath ∈ s.createdFiles ∨ newPath ∉ s.createdFiles ∨
        alookup s.fileToRemote oldPath = s.writeRemote) →
      nsInv (Rename s oldPath newPath o).1) ∧
    (∀ s source dest o, StateWF s → nsInv s →
      FreshFor s.createdFiles (parentOf dest) o.listing →
      nsInv (Symlink s source dest o).1) ∧
    (∀ s name o, nsInv s → nsInv (Utimens s name o).1) ∧
    (∀ s name, (Chmod s name).1 = s ∧ (Chown s name).1 = s ∧
      (SetXAttr s name).1 = s ∧ (RemoveXAttr s name).1 = s ∧
      (Access s name).1 = s) := by
  refine ⟨?_, ?_, ?_, ?_, ?_, ?_, ?_, ?_, ?_, ?_, ?_, ?_⟩
  · exact fun s name listing hwf h hfr =>
      GetAttr_pres s name listing hwf.1 hfr h
  · exact fun s name listing hwf h hfr =>
      OpenDir_pres s name listing hwf.1 hfr h
  · exact fun s name flags o hwf h =>
      Open_pres s name flags o hwf.2.1 hwf.2.2.1 h
  · intro s name flags o hwf h hfr hc
    rcases hc with hc | hc
    · exact Create_pres_new s name flags o hwf.2.2.1 hwf.1 hc hfr h
    · rcases hfl : alookup s.files name with _ | a
      · exact Create_pres_new s name flags o hwf.2.2.1 hwf.1 hfl hfr h
      · exact Create_pres_existing s name flags o hwf.2.2.1
          (by rw [hfl]; rfl) hc h
  · exact fun s name ds h => Unlink_pres s name ds h
  · exact fun s name offset o hwf h =>
      Truncate_pres s name offset o hwf.2.1 h
  · exact fun s name o hwf h hfr =>
      Mkdir_pres s name o hwf.1 hwf.2.2.1 hfr h
  · exact fun s name rok h => Rmdir_pres s name rok h
  · exact fun s old new o hwf h hfr hc =>
      Rename_pres s old new o hwf.1 hwf.2.2.2.2 hfr hc h
  · exact fun s src dest o hwf h hfr =>
      Symlink_pres s src dest o hwf.1 hwf.2.2.1 hfr h
  · exact fun s name o h => Utimens_pres s name o h
  · exact fun s name => ⟨Chmod_id s name, Chown_id s name,
      SetXAttr_id s name, RemoveXAttr_id s name, Access_id s name⟩

/-- Witness for the amended claim C2: the hypotheses are satisfiable on
the concrete mounted fixture (a well-formed invariant-satisfying state,
an empty-listing oracle that is fresh for everything, a `Create` of a
new path and a `Rename` of a created file). -/
theorem C2_witness :
    nsInv (Create exSfc "g" 64 {}).1 ∧
    nsInv (Rename exSfc "f" "g" {}).1 ∧
    nsInv (Unlink exSfc "p" OK).1 :=
  ⟨C2_callbacks_preserve_namespace_invariant.2.2.2.1 exSfc "g" 64 {}
      (by decide) (by decide)
      (fun r p hp => absurd hp (List.not_mem_nil p))
      (Or.inl (by decide)),
   C2_callbacks_preserve_namespace_invariant.2.2.2.2.2.2.2.2.1 exSfc
      "f" "g" {} (by decide) (by decide)
      (fun r p hp => absurd hp (List.not_mem_nil p))
      (Or.inl (by decide)),
   C2_callbacks_preserve_namespace_invariant.2.2.2.2.1 exSfc "p" OK
      (by decide)⟩

end Muxfys
